import Mathlib

/-!
Verification development for the xls-muncher spreadsheet ingester.

The definitions below are a shallow embedding of `xlsmuncher/ingester.py`
(class `FieldParser`, functions `read_config` and `ingest_sheet`),
`xlsmuncher/database/db_model.py` (tables `Patient` and `Procedure`,
`Procedure.find_existing`, `Procedure.update`, `procedure_constructor`,
`augment_argument_map`) and `xlsmuncher/database/db_helper.py`
(`all_db_columns`, `has_required_fields`).

Python scalar values flowing through the ingester are modelled by `PyVal`;
Python exceptions surfacing from `parse_cell` are modelled by the
`Except PyErr` monad.  External collaborators (the `datetime` /
`dateutil.parser` / `yaml` libraries and the SQLAlchemy session) are
modelled by executable Lean functions following their documented
behaviour on the value shapes this program feeds them.
-/

namespace XlsMuncher

/-- Proleptic Gregorian calendar date, modelling Python `datetime.date`. -/
structure PyDate where
  year : Nat
  month : Nat
  day : Nat
deriving DecidableEq

/-- Leap-year test of the Gregorian calendar. -/
def isLeap (y : Nat) : Bool :=
  y % 4 == 0 && (y % 100 != 0 || y % 400 == 0)

/-- Number of days in a month, as validated by `datetime.date`. -/
def daysInMonth (y m : Nat) : Nat :=
  if m = 2 then (if isLeap y then 29 else 28)
  else if m = 4 ∨ m = 6 ∨ m = 9 ∨ m = 11 then 30
  else 31

/-- Validity test corresponding to the checks of the `datetime.date` constructor. -/
def validDate (d : PyDate) : Bool :=
  1 ≤ d.year && d.year ≤ 9999 && 1 ≤ d.month && d.month ≤ 12 &&
  1 ≤ d.day && d.day ≤ daysInMonth d.year d.month

/-- Rata-die style day count for a date (days-from-civil algorithm),
used to model `datetime.timedelta` day arithmetic. -/
def toRataDie (dt : PyDate) : Int :=
  let y : Int := if dt.month ≤ 2 then (dt.year : Int) - 1 else (dt.year : Int)
  let m : Int := (dt.month : Int)
  let d : Int := (dt.day : Int)
  let era : Int := (if y ≥ 0 then y else y - 399) / 400
  let yoe : Int := y - era * 400
  let doy : Int := (153 * (m + (if m > 2 then -3 else 9)) + 2) / 5 + d - 1
  let doe : Int := yoe * 365 + yoe / 4 - yoe / 100 + doy
  era * 146097 + doe

/-- Inverse of `toRataDie` (civil-from-days algorithm). -/
def fromRataDie (z0 : Int) : PyDate :=
  let z : Int := z0 + 719468 - 719468
  let era : Int := (if z ≥ 0 then z else z - 146096) / 146097
  let doe : Int := z - era * 146097
  let yoe : Int := (doe - doe / 1460 + doe / 36524 - doe / 146096) / 365
  let y : Int := yoe + era * 400
  let doy : Int := doe - (365 * yoe + yoe / 4 - yoe / 100)
  let mp : Int := (5 * doy + 2) / 153
  let d : Int := doy - (153 * mp + 2) / 5 + 1
  let m : Int := mp + (if mp < 10 then 3 else -9)
  let yr : Int := if m ≤ 2 then y + 1 else y
  { year := yr.toNat, month := m.toNat, day := d.toNat }

/-- Model of `date + datetime.timedelta(days=offset)`. -/
def addDays (d : PyDate) (offset : Int) : PyDate :=
  fromRataDie (toRataDie d + offset)

/-- Scalar Python value as it flows through `parse_cell` and the records:
`None`, `str`, `datetime.date`, `datetime.datetime` (date part plus a
time-of-day), `bool`, or an integral number. -/
inductive PyVal where
  | vnone : PyVal
  | vstr : String → PyVal
  | vdate : PyDate → PyVal
  | vdtime : PyDate → Nat → Nat → Nat → PyVal
  | vbool : Bool → PyVal
  | vint : Int → PyVal
deriving DecidableEq

/-- Python truthiness of a `PyVal` (`bool(value)`). -/
def pyTruthy : PyVal → Bool
  | .vnone => false
  | .vstr s => s ≠ ""
  | .vdate _ => true
  | .vdtime _ _ _ _ => true
  | .vbool b => b
  | .vint n => n ≠ 0

/-- Two-character zero-padded decimal rendering of a number below 100. -/
def pad2Chars (n : Nat) : List Char :=
  [Char.ofNat (48 + n / 10), Char.ofNat (48 + n % 10)]

/-- Four-character zero-padded decimal rendering of a number below 10000. -/
def pad4Chars (n : Nat) : List Char :=
  pad2Chars (n / 100) ++ pad2Chars (n % 100)

/-- ISO rendering of a date, modelling Python `str(date)`. -/
def isoDate (d : PyDate) : String :=
  ⟨pad4Chars d.year ++ '-' :: pad2Chars d.month ++ '-' :: pad2Chars d.day⟩

/-- Model of Python `str(value)` on the scalar values the ingester stores. -/
def pyStr : PyVal → String
  | .vnone => "None"
  | .vstr s => s
  | .vdate d => isoDate d
  | .vdtime d h mi s =>
      (isoDate d) ++ " " ++ ⟨pad2Chars h⟩ ++ ":" ++ ⟨pad2Chars mi⟩ ++ ":" ++ ⟨pad2Chars s⟩
  | .vbool b => if b then "True" else "False"
  | .vint n => toString n

/-- Mutable Python dict keyed by DB column names, in insertion order.
This models the `procedure_record` dictionaries of `ingest_sheet`. -/
def Record := List (String × PyVal)
deriving instance DecidableEq for Record

/-- Dict store: replace the binding in place if the key exists, else append
(Python dict assignment `record[k] = v`). -/
def rset (rec : Record) (k : String) (v : PyVal) : Record :=
  match rec with
  | [] => [(k, v)]
  | (a, b) :: t => if a = k then (k, v) :: t else (a, b) :: rset t k v

/-- Dict read with default `None` (`record.get(k, None)`; also what
`record[k]` yields for keys this program always sets before reading). -/
def rget (rec : Record) (k : String) : PyVal :=
  match rec.find? (fun p => p.1 = k) with
  | some p => p.2
  | none => .vnone

/-- Storage column types used by the two tables (SQLAlchemy type class names). -/
inductive CType where
  | cstring
  | ctext
  | cdate
  | cboolean
  | cinteger
deriving DecidableEq

/-- Schema metadata for one storage column: name, type, nullability,
whether `autoincrement is True`, and whether the column has a default. -/
structure ColMeta where
  name : String
  ctype : CType
  nullable : Bool
  autoinc : Bool
  hasDefault : Bool
deriving DecidableEq

/-- Columns of the `procedure` table, in declaration order
(`db_model.py`, class `Procedure`). -/
def procedureColumns : List ColMeta :=
  [ ⟨"procedure_id", .cinteger, false, true, false⟩,
    ⟨"idmrn", .cstring, true, false, false⟩,
    ⟨"surgical_procedure", .cstring, false, false, false⟩,
    ⟨"surgical_date", .cdate, false, false, false⟩,
    ⟨"surgical_priority", .cstring, true, false, false⟩,
    ⟨"surgical_consultant", .cstring, true, false, false⟩,
    ⟨"surgical_pathway", .cstring, false, false, false⟩,
    ⟨"surgical_notes", .ctext, true, false, false⟩,
    ⟨"pacu_request", .cboolean, true, false, false⟩,
    ⟨"cancelled", .cboolean, false, false, true⟩ ]

/-- Columns of the `patient` table, in declaration order
(`db_model.py`, class `Patient`).  `idmrn` is the primary key, hence not
nullable, and its `autoincrement` attribute is `"auto"`, not `True`. -/
def patientColumns : List ColMeta :=
  [ ⟨"idmrn", .cstring, false, false, false⟩,
    ⟨"patient_given_name", .cstring, false, false, false⟩,
    ⟨"patient_family_name", .cstring, false, false, false⟩,
    ⟨"date_of_birth", .cdate, true, false, false⟩,
    ⟨"nhs_number", .cstring, true, false, false⟩,
    ⟨"sex", .cinteger, true, false, false⟩ ]

/-- Model of `db_helper.all_db_columns`: procedure columns then patient columns. -/
def all_db_columns : List ColMeta := procedureColumns ++ patientColumns

/-- Whether a column is required by `has_required_fields`:
not nullable, `autoincrement` not `True`, and no default. -/
def requiredCol (f : ColMeta) : Bool :=
  !f.nullable && !f.autoinc && !f.hasDefault

/-- Model of `db_helper.has_required_fields`: every required column must
hold a truthy value in the record. -/
def has_required_fields (rec : Record) : Bool :=
  all_db_columns.all (fun f => !requiredCol f || pyTruthy (rget rec f.name))

/-- Column type of a DB column name as resolved by `FieldParser.__init__`:
the `Procedure` table is consulted first, then `Patient`.  Resolution of a
name in neither table raises in Python; those parsers cannot be built, so
here the lookup is partial. -/
def colTypeOf (n : String) : Option CType :=
  match procedureColumns.find? (fun f => f.name = n) with
  | some f => some f.ctype
  | none =>
      match patientColumns.find? (fun f => f.name = n) with
      | some f => some f.ctype
      | none => none

/-- Decimal value of a digit character. -/
def dval (c : Char) : Nat := c.toNat - 48

/-- Directive of an `strftime`-style date format string, covering the
directives the configurations use: a day field (`%d`), a month field
(`%m`), a four-digit year field (`%Y`), or a literal character. -/
inductive Dir where
  | dd
  | dm
  | dY
  | lit : Char → Dir
deriving DecidableEq

/-- Partially collected (day, month, year) groups while matching a format. -/
def DMY := Option Nat × Option Nat × Option Nat
deriving instance DecidableEq for DMY

/-- Matcher for a format against the characters of a stripped value,
modelling CPython `_strptime`'s regex (including the one-or-two digit
alternatives for `%d` and `%m`, with backtracking, and the exact
four-digit match for `%Y`; the whole string must be consumed). -/
def runFmt : List Dir → List Char → Option DMY
  | [], [] => some (none, none, none)
  | [], _ :: _ => none
  | .lit ch :: ds, c :: cs => if c = ch then runFmt ds cs else none
  | .lit _ :: _, [] => none
  | .dd :: ds, c1 :: c2 :: cs =>
      (if c1.isDigit && c2.isDigit && 1 ≤ dval c1 * 10 + dval c2 && dval c1 * 10 + dval c2 ≤ 31 then
        (runFmt ds cs).map (fun t => (some (dval c1 * 10 + dval c2), t.2.1, t.2.2))
      else none) <|>
      (if c1.isDigit && c1 ≠ '0' then
        (runFmt ds (c2 :: cs)).map (fun t => (some (dval c1), t.2.1, t.2.2))
      else none)
  | .dd :: ds, [c1] =>
      if c1.isDigit && c1 ≠ '0' then
        (runFmt ds []).map (fun t => (some (dval c1), t.2.1, t.2.2))
      else none
  | .dd :: _, [] => none
  | .dm :: ds, c1 :: c2 :: cs =>
      (if c1.isDigit && c2.isDigit && 1 ≤ dval c1 * 10 + dval c2 && dval c1 * 10 + dval c2 ≤ 12 then
        (runFmt ds cs).map (fun t => (t.1, some (dval c1 * 10 + dval c2), t.2.2))
      else none) <|>
      (if c1.isDigit && c1 ≠ '0' then
        (runFmt ds (c2 :: cs)).map (fun t => (t.1, some (dval c1), t.2.2))
      else none)
  | .dm :: ds, [c1] =>
      if c1.isDigit && c1 ≠ '0' then
        (runFmt ds []).map (fun t => (t.1, some (dval c1), t.2.2))
      else none
  | .dm :: _, [] => none
  | .dY :: ds, c1 :: c2 :: c3 :: c4 :: cs =>
      if c1.isDigit && c2.isDigit && c3.isDigit && c4.isDigit then
        (runFmt ds cs).map
          (fun t => (t.1, t.2.1, some (((dval c1 * 10 + dval c2) * 10 + dval c3) * 10 + dval c4)))
      else none
  | .dY :: _, _ => none

/-- Model of `datetime.datetime.strptime(s, fmt).date()`: match the format,
apply the 1900-01-01 defaults for missing fields, and validate the
calendar date (an invalid combination raises `ValueError`, i.e. `none`). -/
def strptimeDate (s : String) (fmt : List Dir) : Option PyDate :=
  match runFmt fmt s.data with
  | some (d?, m?, y?) =>
      let dt : PyDate := ⟨y?.getD 1900, m?.getD 1, d?.getD 1⟩
      if validDate dt then some dt else none
  | none => none

/-- Model of Python `str.strip()`: drop leading and trailing whitespace. -/
def pyStrip (s : String) : String :=
  ⟨((s.data.dropWhile Char.isWhitespace).reverse.dropWhile Char.isWhitespace).reverse⟩

/-- Splitter used by the fallback date parser model: break a string on the
separator characters `dateutil` recognises in purely numeric dates. -/
def splitSeps (s : String) : List String :=
  let go := fun (acc : List (List Char) × List Char) (c : Char) =>
    if c = '/' ∨ c = '-' ∨ c = '.' ∨ c = ' ' then (acc.1 ++ [acc.2], []) else (acc.1, acc.2 ++ [c])
  let r := s.data.foldl go ([], [])
  (r.1 ++ [r.2]).map (fun cs => (⟨cs⟩ : String))

/-- Whether a string is a nonempty run of decimal digits. -/
def allDigits (s : String) : Bool :=
  s ≠ "" && s.data.all Char.isDigit

/-- Numeric value of a digit string. -/
def digitsVal (s : String) : Nat :=
  s.data.foldl (fun a c => a * 10 + dval c) 0

/-- Model of the permissive fallback
`dateutil.parser.parse(value, ignoretz=True, dayfirst=True, fuzzy=False).date()`
on the shapes it is given here: three numeric fields separated by `/`,
`-`, `.` or space; a four-digit leading field is a year (year-month-day),
otherwise the fields are read day-first with a four-digit trailing year.
Anything else is rejected (`ValueError`, i.e. `none`). -/
def fallbackParseDate (s : String) : Option PyDate :=
  match splitSeps (pyStrip s) with
  | [t1, t2, t3] =>
      if allDigits t1 && allDigits t2 && allDigits t3 then
        let dt : PyDate :=
          if t1.length = 4 then ⟨digitsVal t1, digitsVal t2, digitsVal t3⟩
          else ⟨digitsVal t3, digitsVal t2, digitsVal t1⟩
        if (t1.length = 4 ∨ t3.length = 4) && validDate dt then some dt else none
      else none
  | _ => none

/-- ASCII lowercase of a character (Python `str.lower()` on the ASCII
hex-colour and yes/no strings this program lowercases). -/
def lowerChar (c : Char) : Char :=
  if 'A' ≤ c ∧ c ≤ 'Z' then Char.ofNat (c.toNat + 32) else c

/-- ASCII lowercase of a string. -/
def pyLower (s : String) : String := ⟨s.data.map lowerChar⟩

/-- Merge strategy of a field parser (`data_insert_method`). -/
inductive InsMethod where
  | replace
  | append
deriving DecidableEq

/-- Cancellation-detection mode of a field parser (`cancellation_mark`). -/
inductive CancelMark where
  | strike
  | red
  | background
  | foreground
deriving DecidableEq

/-- Whether the mode name ends in `'ground'` (the colour-matching modes). -/
def isGroundMark : CancelMark → Bool
  | .background => true
  | .foreground => true
  | .strike => false
  | .red => false

/-- Shallow embedding of a `FieldParser` instance's attributes.
`extra_date_formats` holds the formats already read as directive lists;
`cancellation_colours` is stored lowercased by the constructor;
`value_transformers` starts empty and is filled by `set_date_basis`. -/
structure FieldParser where
  db_col_name : String
  dbColType : CType
  extra_column_name : Option String
  data_insert_method : InsMethod
  propagate_missing_values : Bool
  check_next_first : Bool
  cancellation_mark : Option CancelMark
  cancellation_colours : List String
  extra_date_formats : List (List Dir)
  day_offsets : List (String × Int)
  value_transformers : List (String × PyDate)
deriving DecidableEq

/-- Model of `FieldParser.__init__`: resolve the column type from the
schema (procedure table first), lowercase the cancellation colours, and
start with no value transformers.  A column name in neither table raises
`KeyError` in Python, hence `none` here. -/
def mkFieldParser (db_col_name : String) (extra_column : Option String)
    (data_insert_method : InsMethod) (propagate_missing_values : Bool)
    (check_next_first : Bool) (cancellation_mark : Option CancelMark)
    (cancellation_colours : List String) (extra_date_formats : List (List Dir))
    (day_offsets : List (String × Int)) : Option FieldParser :=
  match colTypeOf db_col_name with
  | none => none
  | some ty =>
      some { db_col_name := db_col_name
             dbColType := ty
             extra_column_name := extra_column
             data_insert_method := data_insert_method
             propagate_missing_values := propagate_missing_values
             check_next_first := check_next_first
             cancellation_mark := cancellation_mark
             cancellation_colours := cancellation_colours.map pyLower
             extra_date_formats := extra_date_formats
             day_offsets := day_offsets
             value_transformers := [] }

/-- Model of `FieldParser.set_date_basis`: populate `value_transformers`
with the `day_offsets` keys mapped to `start_date + offset` days. -/
def set_date_basis (p : FieldParser) (start_date : PyDate) : FieldParser :=
  { p with value_transformers := p.day_offsets.map (fun kv => (kv.1, addDays start_date kv.2)) }

/-- Font information for a cell, per the spreadsheet access layer's
contract (`Cell.font.{strike,red,background,foreground}`): booleans for
strikethrough and all-red text, lowercase hex colour strings for the
background and foreground colours. -/
structure Font where
  strike : Bool
  red : Bool
  background : String
  foreground : String
deriving DecidableEq

/-- Spreadsheet cell: its converted value, font, and 0-based coordinates. -/
structure Cell where
  value : PyVal
  font : Font
  row : Nat
  col : Nat
deriving DecidableEq

/-- Cell-addressable view of a sheet (`sheet.cell(row, col)`); positions
outside the populated area read as empty cells. -/
def SheetGrid := Nat → Nat → Cell

deriving instance DecidableEq for Except

/-- Python exceptions that `parse_cell` can raise, as modelled here:
a failed transformer lookup (`KeyError`), string operations on
incompatible values (`TypeError`), and indexing an empty split result
(`IndexError`). -/
inductive PyErr where
  | keyError
  | typeError
  | indexError
deriving DecidableEq

/-- Value-transformer step of `parse_cell` (`if self.value_transformers
and value: value = self.value_transformers[value]`): when transformers
are configured and the value is truthy, the value is looked up — a
missing key raises `KeyError`.  The dict lookup
`self.value_transformers[value]` itself: string keys only, so a non-string
truthy value also raises `KeyError`. -/
def transformLookup (tr : List (String × PyDate)) (v : PyVal) : Except PyErr PyVal :=
  match v with
  | .vstr s =>
      match tr.find? (fun kv => kv.1 = s) with
      | some kv => .ok (.vdate kv.2)
      | none => .error .keyError
  | _ => .error .keyError

/-- Value-transformer condition of `parse_cell`: the lookup only happens
when transformers are configured and the value is truthy. -/
def transformStep (p : FieldParser) (v : PyVal) : Except PyErr PyVal :=
  if p.value_transformers ≠ [] ∧ pyTruthy v then
    transformLookup p.value_transformers v
  else .ok v

/-- First-success format matching: try each configured format in order and
stop at the first that parses (the `for ... break` loop). -/
def tryFormats (fmts : List (List Dir)) (s : String) : Option PyDate :=
  match fmts with
  | [] => none
  | f :: fs =>
      match strptimeDate s f with
      | some d => some d
      | none => tryFormats fs s

/-- Malformed-date recovery core of `parse_cell` on a nonempty string for
a date-typed column: try the configured formats in order, then the
permissive fallback parser; if everything fails the method logs and
returns early (`none` here means that early return, leaving the record
untouched). -/
def dateRecoveryStr (fmts : List (List Dir)) (s : String) : Option PyVal :=
  if s ≠ "" then
    match tryFormats fmts (pyStrip s) with
    | some d => some (.vdate d)
    | none =>
        match fallbackParseDate s with
        | some d => some (.vdate d)
        | none => none
  else some (.vstr s)

/-- Dispatch of the malformed-date recovery: only date-typed columns with
string values enter the recovery
(`if self.db_col_type == 'Date' and isinstance(value, str) and value`). -/
def dateRecovery (p : FieldParser) (v : PyVal) : Option PyVal :=
  match v with
  | .vstr s =>
      if p.dbColType = .cdate then dateRecoveryStr p.extra_date_formats s
      else some (.vstr s)
  | v => some v

/-- Datetime-to-date coercion step: a full timestamp for a date-typed
column is truncated to its date component. -/
def toDatePart : PyVal → PyVal
  | .vdtime d _ _ _ => .vdate d
  | v => v

/-- Dispatch of the datetime coercion: only date-typed columns. -/
def coerceDatetime (p : FieldParser) (v : PyVal) : PyVal :=
  if p.dbColType = .cdate then toDatePart v else v

/-- String-boolean coercion step: for boolean-typed columns,
case-insensitive `n`/`no` means false and `y`/`yes` means true;
other strings pass through unchanged. -/
def strToBool : PyVal → PyVal
  | .vstr s =>
      if pyLower s = "n" ∨ pyLower s = "no" then .vbool false
      else if pyLower s = "y" ∨ pyLower s = "yes" then .vbool true
      else .vstr s
  | v => v

/-- Dispatch of the string-boolean coercion: only boolean-typed columns. -/
def coerceBool (p : FieldParser) (v : PyVal) : PyVal :=
  if p.dbColType = .cboolean then strToBool v else v

/-- Merge step: with the `append` method and both the existing record
value and the new value truthy, concatenate with a space (string
concatenation on non-strings raises `TypeError`); otherwise overwrite. -/
def appendVals (old v : PyVal) : Except PyErr PyVal :=
  match old, v with
  | .vstr a, .vstr b => .ok (.vstr (a ++ " " ++ b))
  | _, _ => .error .typeError

/-- Dispatch of the merge step: append only with the `append` method and
both values truthy; otherwise overwrite. -/
def mergeStep (p : FieldParser) (rec : Record) (v : PyVal) : Except PyErr Record :=
  if p.data_insert_method = .append ∧ pyTruthy (rget rec p.db_col_name) ∧ pyTruthy v then
    match appendVals (rget rec p.db_col_name) v with
    | .ok w => .ok (rset rec p.db_col_name w)
    | .error e => .error e
  else .ok (rset rec p.db_col_name v)

/-- Whitespace predicate of Python `str.split()`. -/
def pyWS (c : Char) : Bool := c.isWhitespace

/-- Model of Python `str.split(maxsplit=1)` on a character list: skip
leading whitespace, take the first token, skip the separator run, and
return the remainder verbatim when nonempty. -/
def pySplit1 (cs : List Char) : List (List Char) :=
  let cs1 := cs.dropWhile pyWS
  match cs1 with
  | [] => []
  | _ =>
      let tok := cs1.takeWhile (fun c => !pyWS c)
      let rest := (cs1.dropWhile (fun c => !pyWS c)).dropWhile pyWS
      if rest = [] then [tok] else [tok, rest]

/-- Column-splitting step (`value[::-1].split(maxsplit=1)` reversed back):
with a secondary column configured and a truthy value, the trailing token
goes to the primary column and the rest (or a single space) to the
secondary one.  Reversal and splitting of a non-string raises
`TypeError`; indexing the empty parts list of an all-whitespace string
raises `IndexError`. -/
def splitVal (col xc : String) (rec : Record) (v : PyVal) : Except PyErr Record :=
  match v with
  | .vstr s =>
      match (pySplit1 s.data.reverse).map List.reverse with
      | [] => .error .indexError
      | [t] => .ok (rset (rset rec col (.vstr ⟨t⟩)) xc (.vstr " "))
      | t :: u :: _ => .ok (rset (rset rec col (.vstr ⟨t⟩)) xc (.vstr ⟨u⟩))
  | _ => .error .typeError

/-- Dispatch of the column-splitting step: only with a secondary column
configured and a truthy value. -/
def splitStep (p : FieldParser) (rec : Record) (v : PyVal) : Except PyErr Record :=
  match p.extra_column_name with
  | none => .ok rec
  | some xc => if pyTruthy v then splitVal p.db_col_name xc rec v else .ok rec

/-- Whether a record value counts as missing for propagation
(`record[col] in [None, '']`). -/
def isBlank (v : PyVal) : Bool := v = .vnone ∨ v = .vstr ""

/-- Font attribute read for a cancellation mode
(`getattr(cell.font, self.cancellation_mark)`): booleans for the strike
and red modes, colour hex strings for the ground modes. -/
def markVal (m : CancelMark) (f : Font) : PyVal :=
  match m with
  | .strike => .vbool f.strike
  | .red => .vbool f.red
  | .background => .vstr f.background
  | .foreground => .vstr f.foreground

/-- Membership of the read mark in the configured colour set
(`mark in self.cancellation_colours`; a boolean mark is never a member,
though short-circuiting means that case is never consulted). -/
def markInColours (mark : PyVal) (colours : List String) : Bool :=
  match mark with
  | .vstr s => colours.contains s
  | _ => false

/-- Cancellation-detection dispatch of `parse_cell`: read the configured
font attribute; if it is truthy and either the mode is not a colour mode
or the colour is among the configured trigger colours, set the record's
`cancelled` field to true.  Nothing is ever written otherwise. -/
def cancelStep (p : FieldParser) (c : Cell) (rec : Record) : Record :=
  match p.cancellation_mark with
  | none => rec
  | some m =>
      if pyTruthy (markVal m c.font) then
        if !isGroundMark m || markInColours (markVal m c.font) p.cancellation_colours then
          rset rec "cancelled" (.vbool true)
        else rec
      else rec

/-- Model of `parse_cell(cell, record, None)`: with `previous_record =
None` both conditions of the propagation block are false, so the method
is the straight-line pipeline.  This is exactly the recursive call made
for the next row's cell, which passes `None` to stop the recursion. -/
def parseCellNoPrev (p : FieldParser) (c : Cell) (rec : Record) : Except PyErr Record :=
  match transformStep p c.value with
  | .error e => .error e
  | .ok v1 =>
      match dateRecovery p v1 with
      | none => .ok rec
      | some v2 =>
          match mergeStep p rec (coerceBool p (coerceDatetime p v2)) with
          | .error e => .error e
          | .ok rec1 =>
              match splitStep p rec1 (coerceBool p (coerceDatetime p v2)) with
              | .error e => .error e
              | .ok rec2 => .ok (cancelStep p c rec2)

/-- Fallback copy of the propagation step: copy the previous record's
value when the slot is still blank, the previous record is truthy (a
nonempty dict), and its value for the column is not `None`. -/
def propagateFromPrev (col : String) (rec1 : Record) (prev : Option Record) : Record :=
  match prev with
  | some pr =>
      if isBlank (rget rec1 col) ∧ pr ≠ [] ∧ rget pr col ≠ .vnone then
        rset rec1 col (rget pr col)
      else rec1
  | none => rec1

/-- Propagation step of `parse_cell`: when enabled and the record's value
for the column is still blank, optionally parse the next row's cell first
(only when `previous_record is not None`), then fall back to the previous
record via `propagateFromPrev`. -/
def propagateStep (p : FieldParser) (grid : SheetGrid) (c : Cell) (rec : Record)
    (prev : Option Record) : Except PyErr Record :=
  if p.propagate_missing_values ∧ isBlank (rget rec p.db_col_name) then
    match (if p.check_next_first ∧ prev.isSome then
        parseCellNoPrev p (grid (c.row + 1) c.col) rec
      else .ok rec) with
    | .error e => .error e
    | .ok rec1 => .ok (propagateFromPrev p.db_col_name rec1 prev)
  else .ok rec

/-- Shallow embedding of `FieldParser.parse_cell`: the fixed pipeline of
value transformation, malformed-date recovery (with early return on
failure), datetime and boolean coercion, merge into the record, column
splitting, propagation (recursing one level into the next row's cell via
`parseCellNoPrev`), and cancellation detection. -/
def parse_cell (p : FieldParser) (grid : SheetGrid) (c : Cell) (rec : Record)
    (prev : Option Record) : Except PyErr Record :=
  match transformStep p c.value with
  | .error e => .error e
  | .ok v1 =>
      match dateRecovery p v1 with
      | none => .ok rec
      | some v2 =>
          match mergeStep p rec (coerceBool p (coerceDatetime p v2)) with
          | .error e => .error e
          | .ok rec1 =>
              match splitStep p rec1 (coerceBool p (coerceDatetime p v2)) with
              | .error e => .error e
              | .ok rec2 =>
                  match propagateStep p grid c rec2 prev with
                  | .error e => .error e
                  | .ok rec3 => .ok (cancelStep p c rec3)

/-- Stored procedure row, with each storage column as an optional typed
value (`None` meaning SQL NULL).  `procedure_id` keeps the raw value it
was given, since the program never reads it back. -/
structure ProcRow where
  procedure_id : Option PyVal
  idmrn : Option String
  surgical_procedure : Option String
  surgical_date : Option PyDate
  surgical_priority : Option String
  surgical_consultant : Option String
  surgical_pathway : Option String
  surgical_notes : Option String
  pacu_request : Option Bool
  cancelled : Option Bool
deriving DecidableEq

/-- Stored patient row.  `sex` is an `Integer` column for which
`augment_argument_map` passes the raw value through. -/
structure PatRow where
  idmrn : Option String
  patient_given_name : Option String
  patient_family_name : Option String
  date_of_birth : Option PyDate
  nhs_number : Option String
  sex : Option PyVal
deriving DecidableEq

/-- Field of `augment_argument_map` for a `String`/`Text` column:
a non-`None` value becomes `str(value)`. -/
def strFieldOf (rec : Record) (n : String) : Option String :=
  match rget rec n with
  | .vnone => none
  | v => some (pyStr v)

/-- Field of `augment_argument_map` for a `Boolean` column:
a non-`None` value becomes `bool(value)`. -/
def boolFieldOf (rec : Record) (n : String) : Option Bool :=
  match rget rec n with
  | .vnone => none
  | v => some (pyTruthy v)

/-- Field of `augment_argument_map` for a `Date` column: date and datetime
values pass through (a datetime is a `datetime.date` instance), anything
else is replaced by `None`. -/
def dateFieldOf (rec : Record) (n : String) : Option PyDate :=
  match rget rec n with
  | .vdate d => some d
  | .vdtime d _ _ _ => some d
  | _ => none

/-- Field of `augment_argument_map` for any other column type:
the raw value. -/
def rawFieldOf (rec : Record) (n : String) : Option PyVal :=
  match rget rec n with
  | .vnone => none
  | v => some v

/-- Value of the `cancelled` field after `procedure_constructor`'s keyword
handling: a record without the key contributes the default `False`; a
stored `None` is filtered out; anything else is coerced with `bool`. -/
def cancelledFieldOf (rec : Record) : Option Bool :=
  match rec.find? (fun kv => kv.1 = "cancelled") with
  | none => some false
  | some kv => match kv.2 with
    | .vnone => none
    | v => some (pyTruthy v)

/-- Procedure part of `procedure_constructor(**record)` followed by
`augment_argument_map` on each non-`None` value. -/
def buildProc (rec : Record) : ProcRow :=
  { procedure_id := rawFieldOf rec "procedure_id"
    idmrn := strFieldOf rec "idmrn"
    surgical_procedure := strFieldOf rec "surgical_procedure"
    surgical_date := dateFieldOf rec "surgical_date"
    surgical_priority := strFieldOf rec "surgical_priority"
    surgical_consultant := strFieldOf rec "surgical_consultant"
    surgical_pathway := strFieldOf rec "surgical_pathway"
    surgical_notes := strFieldOf rec "surgical_notes"
    pacu_request := boolFieldOf rec "pacu_request"
    cancelled := cancelledFieldOf rec }

/-- Patient part of `procedure_constructor(**record)`. -/
def buildPat (rec : Record) : PatRow :=
  { idmrn := strFieldOf rec "idmrn"
    patient_given_name := strFieldOf rec "patient_given_name"
    patient_family_name := strFieldOf rec "patient_family_name"
    date_of_birth := dateFieldOf rec "date_of_birth"
    nhs_number := strFieldOf rec "nhs_number"
    sex := rawFieldOf rec "sex" }

/-- Enumeration of the `procedure` table's storage columns, for stating
column-wise facts about `Procedure.update`. -/
inductive PCol where
  | procedure_id
  | idmrn
  | surgical_procedure
  | surgical_date
  | surgical_priority
  | surgical_consultant
  | surgical_pathway
  | surgical_notes
  | pacu_request
  | cancelled
deriving DecidableEq

/-- Uniform read of a procedure row's column as an optional Python value
(dates and booleans wrapped back into `PyVal`). -/
def getProcCol (p : ProcRow) : PCol → Option PyVal
  | .procedure_id => p.procedure_id
  | .idmrn => p.idmrn.map PyVal.vstr
  | .surgical_procedure => p.surgical_procedure.map PyVal.vstr
  | .surgical_date => p.surgical_date.map PyVal.vdate
  | .surgical_priority => p.surgical_priority.map PyVal.vstr
  | .surgical_consultant => p.surgical_consultant.map PyVal.vstr
  | .surgical_pathway => p.surgical_pathway.map PyVal.vstr
  | .surgical_notes => p.surgical_notes.map PyVal.vstr
  | .pacu_request => p.pacu_request.map PyVal.vbool
  | .cancelled => p.cancelled.map PyVal.vbool

/-- Keep the new value when it is not null, otherwise the old one
(`if new_val is not None: setattr(...)`). -/
def pick {α : Type} (new old : Option α) : Option α :=
  match new with
  | some v => some v
  | none => old

/-- Model of `Procedure.update(self=e, other=o)`: every storage column
except the auto-generated `procedure_id` takes the other row's value when
that value is not null. -/
def procUpdate (e o : ProcRow) : ProcRow :=
  { procedure_id := e.procedure_id
    idmrn := pick o.idmrn e.idmrn
    surgical_procedure := pick o.surgical_procedure e.surgical_procedure
    surgical_date := pick o.surgical_date e.surgical_date
    surgical_priority := pick o.surgical_priority e.surgical_priority
    surgical_consultant := pick o.surgical_consultant e.surgical_consultant
    surgical_pathway := pick o.surgical_pathway e.surgical_pathway
    surgical_notes := pick o.surgical_notes e.surgical_notes
    pacu_request := pick o.pacu_request e.pacu_request
    cancelled := pick o.cancelled e.cancelled }

/-- Model of `Session.merge` cascading to a transient `Patient`: the
attributes set on the transient instance (exactly its non-null fields)
are copied onto the located row. -/
def patMerge (e pa : PatRow) : PatRow :=
  { idmrn := pick pa.idmrn e.idmrn
    patient_given_name := pick pa.patient_given_name e.patient_given_name
    patient_family_name := pick pa.patient_family_name e.patient_family_name
    date_of_birth := pick pa.date_of_birth e.date_of_birth
    nhs_number := pick pa.nhs_number e.nhs_number
    sex := pick pa.sex e.sex }

/-- Natural key of a procedure row: the `find_existing` filter columns
(patient identifier, procedure name, procedure date). -/
def keyOf (p : ProcRow) : Option String × Option String × Option PyDate :=
  (p.idmrn, p.surgical_procedure, p.surgical_date)

/-- Rows of a procedure list matching a natural key (the
`find_existing` query result set). -/
def filterK (k : Option String × Option String × Option PyDate) (l : List ProcRow) : List ProcRow :=
  l.filter (fun p => keyOf p = k)

/-- Update the first row matching the key in place with `procUpdate`. -/
def updFirst (k : Option String × Option String × Option PyDate) (c : ProcRow) :
    List ProcRow → List ProcRow
  | [] => []
  | p :: ps => if keyOf p = k then procUpdate p c :: ps else p :: updFirst k c ps

/-- Column defaults applied when a row is inserted: `cancelled` has
default `False`, so a null `cancelled` is stored as false. -/
def insertFix (c : ProcRow) : ProcRow :=
  { c with cancelled := some (c.cancelled.getD false) }

/-- Whether committing the insert of this candidate pair satisfies the
non-nullable constraints without defaults (`surgical_procedure`,
`surgical_date`, `surgical_pathway`; patient `idmrn` and names).
A violation raises `IntegrityError`, which `ingest_sheet` catches and
rolls back. -/
def commitOk (c : ProcRow) (pa : PatRow) : Bool :=
  c.surgical_procedure.isSome && c.surgical_date.isSome && c.surgical_pathway.isSome &&
  pa.idmrn.isSome && pa.patient_given_name.isSome && pa.patient_family_name.isSome

/-- Merge a transient patient into the patient table by primary key:
update the matching row's set fields, or insert a new row. -/
def mergePats (pa : PatRow) : List PatRow → List PatRow
  | [] => [pa]
  | e :: es => if e.idmrn = pa.idmrn then patMerge e pa :: es else e :: mergePats pa es

/-- Relational store: the `procedure` and `patient` tables as row lists
in insertion order. -/
structure Store where
  procs : List ProcRow
  pats : List PatRow
deriving DecidableEq

/-- Errors aborting a sheet's ingestion: a Python exception from
`parse_cell`, or `one_or_none` finding several rows for one natural key
(`MultipleResultsFound`), neither of which `ingest_sheet` catches. -/
inductive IngErr where
  | parse : PyErr → IngErr
  | multipleResults
deriving DecidableEq

/-- Per-record storage step of `ingest_sheet` (lines 272-287): gate on
`has_required_fields`; construct the candidate pair; `find_existing`
looks the procedure up by natural key with `one_or_none` — a unique match
is updated in place, no match takes the `session.merge` path which
inserts the procedure (applying column defaults) and merges the patient
by primary key, unless committing violates a constraint, in which case
the row is rolled back and ignored. -/
def dbStep (st : Store) (rec : Record) : Except IngErr Store :=
  if has_required_fields rec then
    let c := buildProc rec
    let pa := buildPat rec
    match filterK (keyOf c) st.procs with
    | [] =>
        if commitOk c pa then
          .ok ⟨st.procs ++ [insertFix c], mergePats pa st.pats⟩
        else
          .ok st
    | [_] => .ok ⟨updFirst (keyOf c) c st.procs, st.pats⟩
    | _ => .error .multipleResults
  else .ok st

/-- Sequence of `dbStep` over the parsed records of a sheet. -/
def dbAll : List Record → Store → Except IngErr Store
  | [], st => .ok st
  | r :: rs, st =>
      match dbStep st r with
      | .error e => .error e
      | .ok st' => dbAll rs st'

/-- Sheet abstraction for the ingestion loop: number of rows, each row's
physical length, and the cell grid. -/
structure Sheet where
  nrows : Nat
  rowLen : Nat → Nat
  grid : SheetGrid

/-- Parse one data row: run each mapped column's parser over the row's
cell (columns beyond the row's physical length are skipped), threading
the record and the previous row's finished record. -/
def parseRowCells (colMap : List (Nat × FieldParser)) (grid : SheetGrid) (ri rlen : Nat)
    (rec last : Record) : Except PyErr Record :=
  match colMap with
  | [] => .ok rec
  | (ci, p) :: rest =>
      match (if ci < rlen then parse_cell p grid (grid ri ci) rec (some last) else .ok rec) with
      | .error e => .error e
      | .ok rec' => parseRowCells rest grid ri rlen rec' last

/-- Parse all data rows of a sheet into records: each row starts from the
seed of sheet-level fixed values, and the finished record (persisted or
not) becomes the previous record of the next row. -/
def parseAllRows (colMap : List (Nat × FieldParser)) (sh : Sheet) (seed : Record) :
    List Nat → Record → Except PyErr (List Record)
  | [], _ => .ok []
  | ri :: rest, last =>
      match parseRowCells colMap sh.grid ri (sh.rowLen ri) seed last with
      | .error e => .error e
      | .ok r =>
          match parseAllRows colMap sh seed rest r with
          | .error e => .error e
          | .ok rs => .ok (r :: rs)

/-- Row loop of `ingest_sheet` (lines 258-288): parse each data row and
feed it to the storage step, advancing the previous-record pointer to
every parsed record, persisted or not. -/
def ingestGo (colMap : List (Nat × FieldParser)) (sh : Sheet) (seed : Record) :
    List Nat → Record → Store → Except IngErr Store
  | [], _, st => .ok st
  | ri :: rest, last, st =>
      match parseRowCells colMap sh.grid ri (sh.rowLen ri) seed last with
      | .error e => .error (.parse e)
      | .ok r =>
          match dbStep st r with
          | .error e => .error e
          | .ok st' => ingestGo colMap sh seed rest r st'

/-- Data-row portion of `ingest_sheet`: rows below the heading row
(`row_offset = header_row_number + 1`, rows are skipped with
`skip_rows=row_offset-1`), starting from an empty previous record. -/
def ingest_sheet_rows (colMap : List (Nat × FieldParser)) (seed : Record) (rowOffset : Nat)
    (sh : Sheet) (st : Store) : Except IngErr Store :=
  ingestGo colMap sh seed ((List.range sh.nrows).drop (rowOffset - 1)) [] st

/-- YAML value as produced by `yaml.safe_load` for the shapes a
configuration file can contain. -/
inductive YVal where
  | ystr : String → YVal
  | yint : Int → YVal
  | ybool : Bool → YVal
  | ylist : List YVal → YVal
  | ydict : List (String × YVal) → YVal
  | ynull : YVal

/-- Python type name of a YAML value (`type(value).__name__`). -/
def yTypeName : YVal → String
  | .ystr _ => "str"
  | .yint _ => "int"
  | .ybool _ => "bool"
  | .ylist _ => "list"
  | .ydict _ => "dict"
  | .ynull => "NoneType"

/-- Expected Python types of the recognised global settings. -/
inductive PyType where
  | pstr
  | plist
  | pint
deriving DecidableEq

/-- Name of an expected type (`typ.__name__`). -/
def pyTypeName : PyType → String
  | .pstr => "str"
  | .plist => "list"
  | .pint => "int"

/-- Model of `isinstance(value, typ)`; note that Python `bool` is a
subclass of `int`. -/
def isinstance (v : YVal) : PyType → Bool
  | .pstr => match v with | .ystr _ => true | _ => false
  | .plist => match v with | .ylist _ => true | _ => false
  | .pint => match v with | .yint _ => true | .ybool _ => true | _ => false

/-- Recognised global settings of `read_config` with their expected
types, in the iteration order of the literal dict. -/
def settingsSpec : List (String × PyType) :=
  [ ("surgical_pathway", .pstr),
    ("surgical_consultant", .pstr),
    ("sheets", .plist),
    ("week_start_date_cell", .pstr),
    ("heading_row", .pint) ]

/-- Configuration error raised for a mistyped recognised setting, carrying
the setting name and the reported expected and actual type names. -/
structure CfgErr where
  setting : String
  expected : String
  actual : String
deriving DecidableEq

/-- Dictionary lookup in the loaded YAML contents (`setting in contents`
followed by `contents[setting]`). -/
def yLookup (contents : List (String × YVal)) (k : String) : Option YVal :=
  match contents.find? (fun kv => kv.1 = k) with
  | some kv => some kv.2
  | none => none

/-- Global-settings loop of `read_config` (ingester.py lines 189-200):
for each recognised setting present in the contents, copy it into the
configuration if it has the expected type and otherwise raise a
`ValueError` reporting expected versus actual type.  Keys of the contents
that are not recognised settings are never consulted by this loop. -/
def readGlobals : List (String × PyType) → List (String × YVal) →
    Except CfgErr (List (String × YVal))
  | [], _ => .ok []
  | (s, ty) :: rest, contents =>
      match yLookup contents s with
      | none => readGlobals rest contents
      | some v =>
          if isinstance v ty then
            match readGlobals rest contents with
            | .error e => .error e
            | .ok acc => .ok ((s, v) :: acc)
          else .error ⟨s, pyTypeName ty, yTypeName v⟩

/-- Model of the global-settings portion of `read_config`: the copied
recognised settings, or the first type error in iteration order. -/
def read_config_globals (contents : List (String × YVal)) : Except CfgErr (List (String × YVal)) :=
  readGlobals settingsSpec contents

/-- Key sequence of a procedure table, in row order. -/
def keysOf (l : List ProcRow) : List (Option String × Option String × Option PyDate) :=
  l.map keyOf

/-- Unique-keys invariant of the procedure table: no two rows share a
natural key (the state in which `one_or_none` cannot raise). -/
def UK (st : Store) : Prop := (keysOf st.procs).Nodup

/-- Whether a natural key has a non-null procedure date — the component
that decides whether a fresh insert under that key can commit. -/
def dOk (k : Option String × Option String × Option PyDate) : Bool := k.2.2.isSome

/-- Candidate procedures a record list contributes to one natural key:
the gated records' candidates whose key matches. -/
def cands (k : Option String × Option String × Option PyDate) (rs : List Record) :
    List ProcRow :=
  rs.filterMap (fun r =>
    if has_required_fields r ∧ keyOf (buildProc r) = k then some (buildProc r) else none)

/-- Net effect of a record list on one already-present row: fold its
key's candidates over the row with `Procedure.update`. -/
def F (rs : List Record) (p : ProcRow) : ProcRow :=
  List.foldl procUpdate p (cands (keyOf p) rs)

/-- Plain font with no cancellation cues (white background, black text). -/
def plainFont : Font := ⟨false, false, "ffffff", "000000"⟩

/-- Cell with the given value, a plain font, and the given coordinates. -/
def mkcell (v : PyVal) (r c : Nat) : Cell := ⟨v, plainFont, r, c⟩

/-- Grid whose cells are all empty. -/
def emptyGrid : SheetGrid := fun r c => mkcell .vnone r c

/-- Day-month-year date format with slashes (`"%d/%m/%Y"`). -/
def dmyFmt : List Dir := [.dd, .lit '/', .dm, .lit '/', .dY]

/-- Zero-padded `dd/mm/yyyy` rendering of a date: the literal string that
encodes the date under the `"%d/%m/%Y"` format. -/
def fmtDMY (d : PyDate) : String :=
  ⟨[Char.ofNat (48 + d.day / 10), Char.ofNat (48 + d.day % 10), '/',
    Char.ofNat (48 + d.month / 10), Char.ofNat (48 + d.month % 10), '/',
    Char.ofNat (48 + d.year / 100 / 10), Char.ofNat (48 + d.year / 100 % 10),
    Char.ofNat (48 + d.year % 100 / 10), Char.ofNat (48 + d.year % 100 % 10)]⟩

/-- Column map of the demonstration sheet: five plain columns covering the
required fields. -/
def demoColMap : List (Nat × FieldParser) :=
  [ (0, ⟨"idmrn", .cstring, none, .replace, false, false, none, [], [], [], []⟩),
    (1, ⟨"patient_given_name", .cstring, none, .replace, false, false, none, [], [], [], []⟩),
    (2, ⟨"patient_family_name", .cstring, none, .replace, false, false, none, [], [], [], []⟩),
    (3, ⟨"surgical_procedure", .cstring, none, .replace, false, false, none, [], [], [], []⟩),
    (4, ⟨"surgical_date", .cdate, none, .replace, false, false, none, [], [], [], []⟩) ]

/-- Demonstration sheet: a heading row followed by two data rows holding
two procedures for one patient. -/
def demoSheet : Sheet :=
  { nrows := 3
    rowLen := fun _ => 5
    grid := fun r c =>
      if r = 1 then
        mkcell (if c = 0 then .vstr "001" else if c = 1 then .vstr "Alice"
          else if c = 2 then .vstr "Smith" else if c = 3 then .vstr "Knee"
          else .vdate ⟨2024, 1, 5⟩) r c
      else if r = 2 then
        mkcell (if c = 0 then .vstr "001" else if c = 1 then .vstr "Alice"
          else if c = 2 then .vstr "Smith" else if c = 3 then .vstr "Hip"
          else .vdate ⟨2024, 1, 5⟩) r c
      else mkcell .vnone r c }

/-- Sheet-level fixed values of the demonstration configuration. -/
def demoSeed : Record := [("surgical_pathway", .vstr "ortho")]

/-- Store produced by ingesting the demonstration sheet into an empty
store. -/
def demoStore : Store :=
  match ingest_sheet_rows demoColMap demoSeed 2 demoSheet ⟨[], []⟩ with
  | .ok st => st
  | .error _ => ⟨[], []⟩

/-- Trailing token of a string: the last maximal run of non-whitespace
characters (ignoring trailing whitespace). -/
def lastToken (s : String) : String :=
  ⟨((s.data.reverse.dropWhile pyWS).takeWhile (fun c => !pyWS c)).reverse⟩

/-- Portion of a string strictly before the whitespace run that precedes
its trailing token. -/
def beforeLastToken (s : String) : String :=
  ⟨(((s.data.reverse.dropWhile pyWS).dropWhile (fun c => !pyWS c)).dropWhile pyWS).reverse⟩

/-- Whether a string holds at least one non-whitespace character. -/
def hasNonWS (s : String) : Bool := s.data.any (fun c => !pyWS c)

/-- Secondary-column value of the split: everything before the trailing
token, or a single space as a placeholder when that is empty. -/
def secondaryOf (s : String) : String :=
  if beforeLastToken s = "" then " " else beforeLastToken s

/-! Basic lemmas about the record dictionaries. -/

theorem rget_rset_self (r : Record) (k : String) (v : PyVal) : rget (rset r k v) k = v := by
  induction r with
  | nil => simp [rset, rget, List.find?]
  | cons hd tl ih =>
      obtain ⟨a, b⟩ := hd
      rw [rset]
      split
      · simp [rget, List.find?]
      · next h =>
          rw [rget, List.find?]
          simp only [show (decide (a = k)) = false by simp [h]]
          exact ih

theorem rget_rset_other (r : Record) (k k' : String) (v : PyVal) (h : k' ≠ k) :
    rget (rset r k v) k' = rget r k' := by
  induction r with
  | nil => simp [rset, rget, List.find?, Ne.symm h]
  | cons hd tl ih =>
      obtain ⟨a, b⟩ := hd
      rw [rset]
      split
      · next heq =>
          subst heq
          rw [rget, List.find?, rget, List.find?]
          simp [Ne.symm h]
      · next hne =>
          rw [rget, List.find?, rget, List.find?]
          cases hab : decide (a = k') with
          | true => simp
          | false => simpa using ih

theorem rset_rset_self (r : Record) (k : String) (v w : PyVal) :
    rset (rset r k v) k w = rset r k w := by
  induction r with
  | nil => simp [rset]
  | cons hd tl ih =>
      obtain ⟨a, b⟩ := hd
      rw [rset]
      split
      · next heq => subst heq; simp [rset]
      · next hne => rw [rset, if_neg hne, rset, if_neg hne, ih]

/-! Lemmas about the individual steps of `parse_cell`, used to trace the
pipeline in the claims below. -/

theorem transformStep_nontruthy (p : FieldParser) (v : PyVal) (h : pyTruthy v = false) :
    transformStep p v = .ok v := by
  rw [transformStep, if_neg (by simp [h])]

theorem transformStep_empty (p : FieldParser) (v : PyVal) (h : p.value_transformers = []) :
    transformStep p v = .ok v := by
  rw [transformStep, if_neg (by simp [h])]

theorem dateRecovery_notstr (p : FieldParser) (v : PyVal) (h : ∀ s, v ≠ .vstr s) :
    dateRecovery p v = some v := by
  cases v with
  | vstr s => exact absurd rfl (h s)
  | vnone => rfl
  | vdate _ => rfl
  | vdtime _ _ _ _ => rfl
  | vbool _ => rfl
  | vint _ => rfl

theorem dateRecovery_notdate (p : FieldParser) (v : PyVal) (h : p.dbColType ≠ .cdate) :
    dateRecovery p v = some v := by
  cases v with
  | vstr s => simp [dateRecovery, h]
  | vnone => rfl
  | vdate _ => rfl
  | vdtime _ _ _ _ => rfl
  | vbool _ => rfl
  | vint _ => rfl

theorem toDatePart_notdt (v : PyVal) (h : ∀ d a b c, v ≠ .vdtime d a b c) :
    toDatePart v = v := by
  cases v with
  | vdtime d a b c => exact absurd rfl (h d a b c)
  | vnone => rfl
  | vstr _ => rfl
  | vdate _ => rfl
  | vbool _ => rfl
  | vint _ => rfl

theorem coerceDatetime_notdt (p : FieldParser) (v : PyVal) (h : ∀ d a b c, v ≠ .vdtime d a b c) :
    coerceDatetime p v = v := by
  rw [coerceDatetime]
  split
  · exact toDatePart_notdt v h
  · rfl

theorem coerceBool_notbool (p : FieldParser) (v : PyVal) (h : p.dbColType ≠ .cboolean) :
    coerceBool p v = v := by
  rw [coerceBool, if_neg h]

theorem mergeStep_nontruthy (p : FieldParser) (rec : Record) (v : PyVal)
    (h : pyTruthy v = false) : mergeStep p rec v = .ok (rset rec p.db_col_name v) := by
  rw [mergeStep, if_neg (by simp [h])]

theorem mergeStep_replace (p : FieldParser) (rec : Record) (v : PyVal)
    (h : p.data_insert_method = .replace) :
    mergeStep p rec v = .ok (rset rec p.db_col_name v) := by
  rw [mergeStep, if_neg (by simp [h])]

theorem mergeStep_blankslot (p : FieldParser) (rec : Record) (v : PyVal)
    (h : pyTruthy (rget rec p.db_col_name) = false) :
    mergeStep p rec v = .ok (rset rec p.db_col_name v) := by
  rw [mergeStep, if_neg (by simp [h])]

theorem splitStep_nocol (p : FieldParser) (rec : Record) (v : PyVal)
    (h : p.extra_column_name = none) : splitStep p rec v = .ok rec := by
  rw [splitStep, h]

theorem splitStep_nontruthy (p : FieldParser) (rec : Record) (v : PyVal)
    (h : pyTruthy v = false) : splitStep p rec v = .ok rec := by
  rw [splitStep]
  cases p.extra_column_name with
  | none => rfl
  | some xc => simp [h]

theorem cancelStep_nomark (p : FieldParser) (c : Cell) (rec : Record)
    (h : p.cancellation_mark = none) : cancelStep p c rec = rec := by
  rw [cancelStep, h]

theorem transformStep_vnone (p : FieldParser) : transformStep p .vnone = .ok .vnone :=
  transformStep_nontruthy p _ rfl

theorem dateRecovery_vnone (p : FieldParser) : dateRecovery p .vnone = some .vnone := rfl

theorem coerceDatetime_vnone (p : FieldParser) : coerceDatetime p .vnone = .vnone := by
  rw [coerceDatetime]; split <;> rfl

theorem coerceBool_vnone (p : FieldParser) : coerceBool p .vnone = .vnone := by
  rw [coerceBool]; split <;> rfl

theorem mergeStep_vnone (p : FieldParser) (rec : Record) :
    mergeStep p rec .vnone = .ok (rset rec p.db_col_name .vnone) :=
  mergeStep_nontruthy _ _ _ rfl

theorem splitStep_vnone (p : FieldParser) (rec : Record) :
    splitStep p rec .vnone = .ok rec :=
  splitStep_nontruthy _ _ _ rfl

/-! Composition lemmas tracing `parse_cell` step by step. -/

theorem parse_cell_steps_ok (p : FieldParser) (grid : SheetGrid) (c : Cell)
    (rec : Record) (prev : Option Record) (v1 v2 : PyVal) (rec1 rec2 rec3 : Record)
    (h1 : transformStep p c.value = .ok v1)
    (h2 : dateRecovery p v1 = some v2)
    (h3 : mergeStep p rec (coerceBool p (coerceDatetime p v2)) = .ok rec1)
    (h4 : splitStep p rec1 (coerceBool p (coerceDatetime p v2)) = .ok rec2)
    (h5 : propagateStep p grid c rec2 prev = .ok rec3) :
    parse_cell p grid c rec prev = .ok (cancelStep p c rec3) := by
  simp only [parse_cell, h1, h2, h3, h4, h5]

theorem parse_cell_early_return (p : FieldParser) (grid : SheetGrid) (c : Cell)
    (rec : Record) (prev : Option Record) (v1 : PyVal)
    (h1 : transformStep p c.value = .ok v1)
    (h2 : dateRecovery p v1 = none) :
    parse_cell p grid c rec prev = .ok rec := by
  simp only [parse_cell, h1, h2]

theorem parse_cell_err_transform (p : FieldParser) (grid : SheetGrid) (c : Cell)
    (rec : Record) (prev : Option Record) (e : PyErr)
    (h1 : transformStep p c.value = .error e) :
    parse_cell p grid c rec prev = .error e := by
  simp only [parse_cell, h1]

theorem parse_cell_err_split (p : FieldParser) (grid : SheetGrid) (c : Cell)
    (rec : Record) (prev : Option Record) (v1 v2 : PyVal) (rec1 : Record) (e : PyErr)
    (h1 : transformStep p c.value = .ok v1)
    (h2 : dateRecovery p v1 = some v2)
    (h3 : mergeStep p rec (coerceBool p (coerceDatetime p v2)) = .ok rec1)
    (h4 : splitStep p rec1 (coerceBool p (coerceDatetime p v2)) = .error e) :
    parse_cell p grid c rec prev = .error e := by
  simp only [parse_cell, h1, h2, h3, h4]

theorem propagateStep_off (p : FieldParser) (grid : SheetGrid) (c : Cell) (rec : Record)
    (prev : Option Record) (h : p.propagate_missing_values = false) :
    propagateStep p grid c rec prev = .ok rec := by
  rw [propagateStep, if_neg (by simp [h])]

theorem parseCellNoPrev_steps_ok (p : FieldParser) (c : Cell)
    (rec : Record) (v1 v2 : PyVal) (rec1 rec2 : Record)
    (h1 : transformStep p c.value = .ok v1)
    (h2 : dateRecovery p v1 = some v2)
    (h3 : mergeStep p rec (coerceBool p (coerceDatetime p v2)) = .ok rec1)
    (h4 : splitStep p rec1 (coerceBool p (coerceDatetime p v2)) = .ok rec2) :
    parseCellNoPrev p c rec = .ok (cancelStep p c rec2) := by
  simp only [parseCellNoPrev, h1, h2, h3, h4]

/-! Claim C4: propagation. -/

/-- C4: with propagation enabled and a blank cell, `parse_cell` fills the
record from its neighbours.  Part 1: without check-next-row-first, a blank
cell in row N takes the previous row's non-null value for the column, so
if row N−1 gave `v` the record holds `v`.  Part 2: with
check-next-row-first set, the next row's cell is parsed first with
propagation disabled (the recursion is one level deep), and a nonempty
value `y` found there fills the record instead of the previous row's
value. -/
theorem c4_propagation_fills_blank_from_neighbour_rows :
    (∀ (col : String) (ty : CType) (xc : Option String) (im : InsMethod)
       (grid : SheetGrid) (c : Cell) (rec pr : Record) (v : PyVal),
       c.value = .vnone → pr ≠ [] → rget pr col = v → v ≠ .vnone →
       parse_cell ⟨col, ty, xc, im, true, false, none, [], [], [], []⟩ grid c rec (some pr)
         = .ok (rset rec col v)) ∧
    (∀ (col : String) (im : InsMethod) (grid : SheetGrid) (c : Cell) (rec pr : Record)
       (y : String),
       c.value = .vnone → (grid (c.row + 1) c.col).value = .vstr y → y ≠ "" →
       parse_cell ⟨col, .cstring, none, im, true, true, none, [], [], [], []⟩ grid c rec (some pr)
         = .ok (rset rec col (.vstr y))) := by
  constructor
  · intro col ty xc im grid c rec pr v hv hpr hg hvn
    simp only [parse_cell, hv, transformStep_vnone, dateRecovery_vnone, coerceDatetime_vnone,
      coerceBool_vnone, mergeStep_vnone, splitStep_vnone, propagateStep, rget_rset_self]
    simp only [isBlank, propagateFromPrev, cancelStep_nomark]
    simp [hg, hpr, hvn, rset_rset_self, cancelStep_nomark]
    intro h1 _
    exact absurd (rget_rset_self rec col .vnone) h1
  · intro col im grid c rec pr y hv hn hy
    simp only [parse_cell, hv, transformStep_vnone, dateRecovery_vnone, coerceDatetime_vnone,
      coerceBool_vnone, mergeStep_vnone, splitStep_vnone, propagateStep, rget_rset_self]
    simp only [isBlank, cancelStep_nomark]
    simp only [parseCellNoPrev, hn]
    simp only [transformStep, ne_eq, not_true_eq_false, false_and, if_false, ite_false]
    simp only [dateRecovery, coerceDatetime, coerceBool, mergeStep, splitStep]
    simp [rget_rset_self, pyTruthy, propagateFromPrev, isBlank, hy, rset_rset_self,
      cancelStep_nomark]

/-- C4 witness: a blank consultant cell takes `X` from the previous row's
record; with check-next-row-first and `Y` in the next row it takes `Y`. -/
theorem c4_propagation_witness :
    parse_cell ⟨"surgical_consultant", .cstring, none, .replace, true, false, none, [], [], [], []⟩
        emptyGrid (mkcell .vnone 2 0) [] (some [("surgical_consultant", .vstr "X")])
      = .ok [("surgical_consultant", .vstr "X")] ∧
    parse_cell ⟨"surgical_consultant", .cstring, none, .replace, true, true, none, [], [], [], []⟩
        (fun r c => if r = 3 ∧ c = 0 then mkcell (.vstr "Y") r c else mkcell .vnone r c)
        (mkcell .vnone 2 0) [] (some [("surgical_consultant", .vstr "X")])
      = .ok [("surgical_consultant", .vstr "Y")] :=
  ⟨c4_propagation_fills_blank_from_neighbour_rows.1 "surgical_consultant" .cstring none .replace
      emptyGrid (mkcell .vnone 2 0) [] [("surgical_consultant", .vstr "X")] (.vstr "X")
      rfl (by decide) rfl (by decide),
   c4_propagation_fills_blank_from_neighbour_rows.2 "surgical_consultant" .replace
      (fun r c => if r = 3 ∧ c = 0 then mkcell (.vstr "Y") r c else mkcell .vnone r c)
      (mkcell .vnone 2 0) [] [("surgical_consultant", .vstr "X")] "Y"
      rfl (by decide) (by decide)⟩

/-! Claim C7: column splitting. -/

theorem pySplit1_reverse_eq (s : String) (h : hasNonWS s = true) :
    (pySplit1 s.data.reverse).map List.reverse
      = if beforeLastToken s = "" then [(lastToken s).data]
        else [(lastToken s).data, (beforeLastToken s).data] := by
  have hcs : s.data.reverse.dropWhile pyWS ≠ [] := by
    intro hnil
    rw [hasNonWS] at h
    have hall : ∀ c ∈ s.data.reverse, pyWS c := by
      intro c hc
      exact List.dropWhile_eq_nil_iff.mp hnil c hc
    simp only [List.any_eq_true] at h
    obtain ⟨c, hc, hnw⟩ := h
    have := hall c (List.mem_reverse.mpr hc)
    simp [this] at hnw
  rw [pySplit1]
  cases hd : s.data.reverse.dropWhile pyWS with
  | nil => exact absurd hd hcs
  | cons a as =>
      simp only [lastToken, beforeLastToken, hd]
      by_cases hr : ((a :: as).dropWhile (fun c => !pyWS c)).dropWhile pyWS = []
      · simp [hr]
      · have hne : (⟨(((a :: as).dropWhile (fun c => !pyWS c)).dropWhile pyWS).reverse⟩ : String)
            ≠ "" := by
          intro he
          apply hr
          have : (((a :: as).dropWhile (fun c => !pyWS c)).dropWhile pyWS).reverse = "".data :=
            congrArg String.data he
          simpa using this
        simp [hr, hne]

theorem pySplit1_allws (s : String) (h : hasNonWS s = false) :
    pySplit1 s.data.reverse = [] := by
  rw [pySplit1]
  have hnil : s.data.reverse.dropWhile pyWS = [] := by
    rw [List.dropWhile_eq_nil_iff]
    intro c hc
    rw [List.mem_reverse] at hc
    rw [hasNonWS] at h
    have h2 := List.any_eq_false.mp h c hc
    simpa using h2
  rw [hnil]

theorem hasNonWS_ne_empty (s : String) (h : hasNonWS s = true) : s ≠ "" := by
  intro he
  subst he
  simp [hasNonWS] at h

/-- C7 counterexample: the claim promises a split outcome for every
non-empty cell value, but a non-empty all-whitespace value makes
`parse_cell` raise `IndexError` (the reversed split yields no parts and
`parts[0]` is out of range), producing no record at all. -/
theorem c7_counterexample_allws_value_raises :
    parse_cell
        ⟨"patient_family_name", .cstring, some "patient_given_name", .replace, false, false,
          none, [], [], [], []⟩
        emptyGrid (mkcell (.vstr "   ") 2 0) [] (some [])
      = .error .indexError := by decide

/-- C7 amended: for a string-typed parser with a secondary target column
and the overwrite merge method, part 1: on a string value with at least
one non-whitespace character, `parse_cell` puts the trailing token in the
primary column and everything before the adjoining whitespace run in the
secondary column, with a single space (never the empty string) when
nothing precedes the token; part 2: on a non-empty all-whitespace value
the split raises `IndexError` instead of assigning anything. -/
theorem c7_split_last_whitespace_run :
    (∀ (col xc : String) (grid : SheetGrid) (c : Cell) (rec : Record) (s : String),
       c.value = .vstr s → hasNonWS s = true →
       parse_cell ⟨col, .cstring, some xc, .replace, false, false, none, [], [], [], []⟩
           grid c rec (some [])
         = .ok (rset (rset rec col (.vstr (lastToken s))) xc (.vstr (secondaryOf s)))) ∧
    (∀ (col xc : String) (grid : SheetGrid) (c : Cell) (rec : Record) (s : String),
       c.value = .vstr s → s ≠ "" → hasNonWS s = false →
       parse_cell ⟨col, .cstring, some xc, .replace, false, false, none, [], [], [], []⟩
           grid c rec (some [])
         = .error .indexError) := by
  constructor
  · intro col xc grid c rec s hv hnw
    have hs : s ≠ "" := hasNonWS_ne_empty s hnw
    have h4 : splitStep ⟨col, .cstring, some xc, .replace, false, false, none, [], [], [], []⟩
        (rset rec col (.vstr s)) (.vstr s)
        = .ok (rset (rset rec col (.vstr (lastToken s))) xc (.vstr (secondaryOf s))) := by
      simp only [splitStep, splitVal]
      rw [if_pos (by simp [pyTruthy, hs])]
      rw [pySplit1_reverse_eq s hnw]
      by_cases hb : beforeLastToken s = ""
      · simp [hb, rset_rset_self, secondaryOf]
      · simp [hb, rset_rset_self, secondaryOf]
    have hres := parse_cell_steps_ok
      ⟨col, .cstring, some xc, .replace, false, false, none, [], [], [], []⟩
      grid c rec (some []) (.vstr s) (.vstr s) (rset rec col (.vstr s))
      (rset (rset rec col (.vstr (lastToken s))) xc (.vstr (secondaryOf s)))
      (rset (rset rec col (.vstr (lastToken s))) xc (.vstr (secondaryOf s)))
      (by rw [hv]; exact transformStep_empty _ _ rfl)
      (by simp [dateRecovery])
      (by exact mergeStep_replace _ _ _ rfl)
      (by exact h4)
      (propagateStep_off _ _ _ _ _ rfl)
    rw [hres, cancelStep_nomark _ _ _ rfl]
  · intro col xc grid c rec s hv hs hnw
    have h4 : splitStep ⟨col, .cstring, some xc, .replace, false, false, none, [], [], [], []⟩
        (rset rec col (.vstr s)) (.vstr s) = .error .indexError := by
      simp only [splitStep, splitVal]
      rw [if_pos (by simp [pyTruthy, hs])]
      rw [show (pySplit1 s.data.reverse).map List.reverse = [] by
        rw [pySplit1_allws s hnw]; rfl]
    exact parse_cell_err_split
      ⟨col, .cstring, some xc, .replace, false, false, none, [], [], [], []⟩
      grid c rec (some []) (.vstr s) (.vstr s) (rset rec col (.vstr s)) .indexError
      (by rw [hv]; exact transformStep_empty _ _ rfl)
      (by simp [dateRecovery])
      (by exact mergeStep_replace _ _ _ rfl)
      h4

/-- C7 witness: `"Smith John"` splits to primary `"John"`, secondary
`"Smith"`; `"Solo"` splits to primary `"Solo"`, secondary a single space;
`"   "` raises `IndexError`. -/
theorem c7_split_witness :
    parse_cell ⟨"patient_family_name", .cstring, some "patient_given_name", .replace, false,
        false, none, [], [], [], []⟩ emptyGrid (mkcell (.vstr "Smith John") 2 0) [] (some [])
      = .ok [("patient_family_name", .vstr "John"), ("patient_given_name", .vstr "Smith")] ∧
    parse_cell ⟨"patient_family_name", .cstring, some "patient_given_name", .replace, false,
        false, none, [], [], [], []⟩ emptyGrid (mkcell (.vstr "Solo") 2 0) [] (some [])
      = .ok [("patient_family_name", .vstr "Solo"), ("patient_given_name", .vstr " ")] ∧
    parse_cell ⟨"patient_family_name", .cstring, some "patient_given_name", .replace, false,
        false, none, [], [], [], []⟩ emptyGrid (mkcell (.vstr "  ") 2 0) [] (some [])
      = .error .indexError := by
  refine ⟨?_, ?_, ?_⟩
  · have := c7_split_last_whitespace_run.1 "patient_family_name" "patient_given_name"
      emptyGrid (mkcell (.vstr "Smith John") 2 0) [] "Smith John" rfl (by decide)
    rw [this]
    decide
  · have := c7_split_last_whitespace_run.1 "patient_family_name" "patient_given_name"
      emptyGrid (mkcell (.vstr "Solo") 2 0) [] "Solo" rfl (by decide)
    rw [this]
    decide
  · exact c7_split_last_whitespace_run.2 "patient_family_name" "patient_given_name"
      emptyGrid (mkcell (.vstr "  ") 2 0) [] "  " rfl (by decide) (by decide)

/-! Claims C6 and C10: malformed-date recovery and its early return. -/

theorem digitChar_isDigit (k : Nat) (h : k < 10) : (Char.ofNat (48 + k)).isDigit = true := by
  interval_cases k <;> decide

theorem dval_digitChar (k : Nat) (h : k < 10) : dval (Char.ofNat (48 + k)) = k := by
  interval_cases k <;> decide

theorem daysInMonth_le_31 (y m : Nat) : daysInMonth y m ≤ 31 := by
  rw [daysInMonth]
  split
  · split <;> omega
  · split <;> omega

theorem strptime_fmtDMY_roundtrip (dt : PyDate) (h : validDate dt = true) :
    strptimeDate (fmtDMY dt) dmyFmt = some dt := by
  obtain ⟨y, m, dd⟩ := dt
  simp only [validDate, Bool.and_eq_true, decide_eq_true_eq] at h
  obtain ⟨⟨⟨⟨⟨hy1, hy2⟩, hm1⟩, hm2⟩, hd1⟩, hd2⟩ := h
  have hd31 : dd ≤ 31 := le_trans hd2 (daysInMonth_le_31 y m)
  have e1 : dval (Char.ofNat (48 + dd / 10)) = dd / 10 := dval_digitChar _ (by omega)
  have e2 : dval (Char.ofNat (48 + dd % 10)) = dd % 10 := dval_digitChar _ (by omega)
  have e3 : dval (Char.ofNat (48 + m / 10)) = m / 10 := dval_digitChar _ (by omega)
  have e4 : dval (Char.ofNat (48 + m % 10)) = m % 10 := dval_digitChar _ (by omega)
  have e5 : dval (Char.ofNat (48 + y / 100 / 10)) = y / 100 / 10 := dval_digitChar _ (by omega)
  have e6 : dval (Char.ofNat (48 + y / 100 % 10)) = y / 100 % 10 := dval_digitChar _ (by omega)
  have e7 : dval (Char.ofNat (48 + y % 100 / 10)) = y % 100 / 10 := dval_digitChar _ (by omega)
  have e8 : dval (Char.ofNat (48 + y % 100 % 10)) = y % 100 % 10 := dval_digitChar _ (by omega)
  have hcD : ((Char.ofNat (48 + dd / 10)).isDigit && (Char.ofNat (48 + dd % 10)).isDigit &&
      decide (1 ≤ dval (Char.ofNat (48 + dd / 10)) * 10 + dval (Char.ofNat (48 + dd % 10))) &&
      decide (dval (Char.ofNat (48 + dd / 10)) * 10 + dval (Char.ofNat (48 + dd % 10)) ≤ 31))
      = true := by
    simp only [digitChar_isDigit _ (show dd / 10 < 10 by omega),
      digitChar_isDigit _ (show dd % 10 < 10 by omega), e1, e2,
      Bool.and_eq_true, decide_eq_true_eq, Bool.true_and, true_and]
    omega
  have hcM : ((Char.ofNat (48 + m / 10)).isDigit && (Char.ofNat (48 + m % 10)).isDigit &&
      decide (1 ≤ dval (Char.ofNat (48 + m / 10)) * 10 + dval (Char.ofNat (48 + m % 10))) &&
      decide (dval (Char.ofNat (48 + m / 10)) * 10 + dval (Char.ofNat (48 + m % 10)) ≤ 12))
      = true := by
    simp only [digitChar_isDigit _ (show m / 10 < 10 by omega),
      digitChar_isDigit _ (show m % 10 < 10 by omega), e3, e4,
      Bool.and_eq_true, decide_eq_true_eq, Bool.true_and, true_and]
    omega
  have hcY : ((Char.ofNat (48 + y / 100 / 10)).isDigit &&
      (Char.ofNat (48 + y / 100 % 10)).isDigit &&
      (Char.ofNat (48 + y % 100 / 10)).isDigit &&
      (Char.ofNat (48 + y % 100 % 10)).isDigit) = true := by
    simp only [digitChar_isDigit _ (show y / 100 / 10 < 10 by omega),
      digitChar_isDigit _ (show y / 100 % 10 < 10 by omega),
      digitChar_isDigit _ (show y % 100 / 10 < 10 by omega),
      digitChar_isDigit _ (show y % 100 % 10 < 10 by omega), Bool.and_eq_true]
    simp
  have hrun : runFmt dmyFmt (fmtDMY ⟨y, m, dd⟩).data = some (some dd, some m, some y) := by
    show runFmt [.dd, .lit '/', .dm, .lit '/', .dY]
      [Char.ofNat (48 + dd / 10), Char.ofNat (48 + dd % 10), '/',
       Char.ofNat (48 + m / 10), Char.ofNat (48 + m % 10), '/',
       Char.ofNat (48 + y / 100 / 10), Char.ofNat (48 + y / 100 % 10),
       Char.ofNat (48 + y % 100 / 10), Char.ofNat (48 + y % 100 % 10)] = _
    simp only [runFmt, hcD, hcM, hcY, if_true, Option.map_some, Option.some_orElse,
      eq_self_iff_true]
    rw [e1, e2, e3, e4, e5, e6, e7, e8]
    refine congrArg some (Prod.ext ?_ (Prod.ext ?_ ?_)) <;> simp <;> omega
  rw [strptimeDate, hrun]
  simp only [Option.getD_some]
  rw [if_pos]
  simp only [validDate, Bool.and_eq_true, decide_eq_true_eq]
  exact ⟨⟨⟨⟨⟨hy1, hy2⟩, hm1⟩, hm2⟩, hd1⟩, hd2⟩

theorem tryFormats_first_success (fs1 : List (List Dir)) (f : List Dir) (fs2 : List (List Dir))
    (s : String) (d : PyDate)
    (h1 : ∀ g ∈ fs1, strptimeDate s g = none) (h2 : strptimeDate s f = some d) :
    tryFormats (fs1 ++ f :: fs2) s = some d := by
  induction fs1 with
  | nil => simp only [List.nil_append, tryFormats, h2]
  | cons g gs ih =>
      rw [List.cons_append, tryFormats, h1 g (by simp)]
      exact ih (fun g' hg' => h1 g' (by simp [hg']))

theorem tryFormats_all_none (fs : List (List Dir)) (s : String)
    (h : ∀ g ∈ fs, strptimeDate s g = none) : tryFormats fs s = none := by
  induction fs with
  | nil => rfl
  | cons g gs ih =>
      rw [tryFormats, h g (by simp)]
      exact ih (fun g' hg' => h g' (by simp [hg']))

theorem coerce_vdate (p : FieldParser) (d : PyDate) :
    coerceBool p (coerceDatetime p (.vdate d)) = .vdate d := by
  rw [coerceDatetime]
  have h1 : toDatePart (.vdate d) = .vdate d := rfl
  rw [h1, ite_self, coerceBool]
  have h2 : strToBool (.vdate d) = .vdate d := rfl
  rw [h2, ite_self]

theorem dateRecoveryStr_formats (fmts : List (List Dir)) (s : String) (d : PyDate)
    (hs : s ≠ "") (ht : tryFormats fmts (pyStrip s) = some d) :
    dateRecoveryStr fmts s = some (.vdate d) := by
  rw [dateRecoveryStr, if_pos hs, ht]

theorem dateRecoveryStr_fallback (fmts : List (List Dir)) (s : String) (d : PyDate)
    (hs : s ≠ "") (ht : tryFormats fmts (pyStrip s) = none) (hf : fallbackParseDate s = some d) :
    dateRecoveryStr fmts s = some (.vdate d) := by
  rw [dateRecoveryStr, if_pos hs, ht, hf]

theorem dateRecoveryStr_fails (fmts : List (List Dir)) (s : String)
    (hs : s ≠ "") (ht : tryFormats fmts (pyStrip s) = none) (hf : fallbackParseDate s = none) :
    dateRecoveryStr fmts s = none := by
  rw [dateRecoveryStr, if_pos hs, ht, hf]

/-- C6: malformed-date recovery in `parse_cell` for a date-typed column
and a nonempty string value.  Part 1: the configured formats are tried in
order and the first success wins, filling the field with the parsed date.
Part 2: when every configured format fails, the permissive fallback
parser's date is used.  Part 3: when the fallback fails too, the record
is returned untouched — the field stays unset, nothing is raised, the row
survives.  Part 4 (round-trip): a string literally encoding a valid date
under the day/month/year format parses back to exactly that date. -/
theorem c6_date_recovery_order_and_fallback :
    (∀ (col : String) (offs : List (String × Int)) (fs1 fs2 : List (List Dir)) (f : List Dir)
       (grid : SheetGrid) (c : Cell) (rec : Record) (prev : Option Record) (s : String)
       (d : PyDate),
       c.value = .vstr s → s ≠ "" →
       (∀ g ∈ fs1, strptimeDate (pyStrip s) g = none) → strptimeDate (pyStrip s) f = some d →
       parse_cell ⟨col, .cdate, none, .replace, false, false, none, [], fs1 ++ f :: fs2,
           offs, []⟩ grid c rec prev
         = .ok (rset rec col (.vdate d))) ∧
    (∀ (col : String) (offs : List (String × Int)) (fmts : List (List Dir))
       (grid : SheetGrid) (c : Cell) (rec : Record) (prev : Option Record) (s : String)
       (d : PyDate),
       c.value = .vstr s → s ≠ "" →
       (∀ g ∈ fmts, strptimeDate (pyStrip s) g = none) → fallbackParseDate s = some d →
       parse_cell ⟨col, .cdate, none, .replace, false, false, none, [], fmts, offs, []⟩
           grid c rec prev
         = .ok (rset rec col (.vdate d))) ∧
    (∀ (col : String) (offs : List (String × Int)) (fmts : List (List Dir))
       (grid : SheetGrid) (c : Cell) (rec : Record) (prev : Option Record) (s : String),
       c.value = .vstr s → s ≠ "" →
       (∀ g ∈ fmts, strptimeDate (pyStrip s) g = none) → fallbackParseDate s = none →
       parse_cell ⟨col, .cdate, none, .replace, false, false, none, [], fmts, offs, []⟩
           grid c rec prev
         = .ok rec) ∧
    (∀ dt : PyDate, validDate dt = true → strptimeDate (fmtDMY dt) dmyFmt = some dt) := by
  refine ⟨?_, ?_, ?_, fun dt h => strptime_fmtDMY_roundtrip dt h⟩
  · intro col offs fs1 fs2 f grid c rec prev s d hv hs h1 h2
    have hres := parse_cell_steps_ok
      ⟨col, .cdate, none, .replace, false, false, none, [], fs1 ++ f :: fs2, offs, []⟩
      grid c rec prev (.vstr s) (.vdate d) (rset rec col (.vdate d)) (rset rec col (.vdate d))
      (rset rec col (.vdate d))
      (by rw [hv]; exact transformStep_empty _ _ rfl)
      (by
        simp only [dateRecovery, if_pos]
        exact dateRecoveryStr_formats _ _ _ hs (tryFormats_first_success fs1 f fs2 _ d h1 h2))
      (by rw [coerce_vdate]; exact mergeStep_replace _ _ _ rfl)
      (by rw [coerce_vdate]; exact splitStep_nocol _ _ _ rfl)
      (propagateStep_off _ _ _ _ _ rfl)
    rw [hres, cancelStep_nomark _ _ _ rfl]
  · intro col offs fmts grid c rec prev s d hv hs h1 h2
    have hres := parse_cell_steps_ok
      ⟨col, .cdate, none, .replace, false, false, none, [], fmts, offs, []⟩
      grid c rec prev (.vstr s) (.vdate d) (rset rec col (.vdate d)) (rset rec col (.vdate d))
      (rset rec col (.vdate d))
      (by rw [hv]; exact transformStep_empty _ _ rfl)
      (by
        simp only [dateRecovery, if_pos]
        exact dateRecoveryStr_fallback _ _ _ hs (tryFormats_all_none fmts _ h1) h2)
      (by rw [coerce_vdate]; exact mergeStep_replace _ _ _ rfl)
      (by rw [coerce_vdate]; exact splitStep_nocol _ _ _ rfl)
      (propagateStep_off _ _ _ _ _ rfl)
    rw [hres, cancelStep_nomark _ _ _ rfl]
  · intro col offs fmts grid c rec prev s hv hs h1 h2
    exact parse_cell_early_return
      ⟨col, .cdate, none, .replace, false, false, none, [], fmts, offs, []⟩
      grid c rec prev (.vstr s)
      (by rw [hv]; exact transformStep_empty _ _ rfl)
      (by
        simp only [dateRecovery, if_pos]
        exact dateRecoveryStr_fails _ _ hs (tryFormats_all_none fmts _ h1) h2)

/-- C6 witness: `"05/01/2024"` parses under the `%d/%m/%Y` format to
2024-01-05; `"7-3-2023"` fails the format list but the fallback reads it
day-first as 2023-03-07; `"notadate"` fails everything and leaves the
record untouched; and the round-trip holds at 2024-01-05. -/
theorem c6_date_recovery_witness :
    parse_cell ⟨"surgical_date", .cdate, none, .replace, false, false, none, [], [dmyFmt],
        [], []⟩ emptyGrid (mkcell (.vstr "05/01/2024") 2 0) [] none
      = .ok [("surgical_date", .vdate ⟨2024, 1, 5⟩)] ∧
    parse_cell ⟨"surgical_date", .cdate, none, .replace, false, false, none, [], [dmyFmt],
        [], []⟩ emptyGrid (mkcell (.vstr "7-3-2023") 2 0) [] none
      = .ok [("surgical_date", .vdate ⟨2023, 3, 7⟩)] ∧
    parse_cell ⟨"surgical_date", .cdate, none, .replace, false, false, none, [], [dmyFmt],
        [], []⟩ emptyGrid (mkcell (.vstr "notadate") 2 0) [] none
      = .ok [] ∧
    strptimeDate (fmtDMY ⟨2024, 1, 5⟩) dmyFmt = some ⟨2024, 1, 5⟩ := by
  refine ⟨?_, ?_, ?_, ?_⟩
  · have := c6_date_recovery_order_and_fallback.1 "surgical_date" [] [] [] dmyFmt
      emptyGrid (mkcell (.vstr "05/01/2024") 2 0) [] none "05/01/2024" ⟨2024, 1, 5⟩
      rfl (by decide) (by simp) (by decide)
    simpa [rset] using this
  · have := c6_date_recovery_order_and_fallback.2.1 "surgical_date" [] [dmyFmt]
      emptyGrid (mkcell (.vstr "7-3-2023") 2 0) [] none "7-3-2023" ⟨2023, 3, 7⟩
      rfl (by decide) (by decide) (by decide)
    simpa [rset] using this
  · exact c6_date_recovery_order_and_fallback.2.2.1 "surgical_date" [] [dmyFmt]
      emptyGrid (mkcell (.vstr "notadate") 2 0) [] none "notadate"
      rfl (by decide) (by decide) (by decide)
  · exact c6_date_recovery_order_and_fallback.2.2.2 ⟨2024, 1, 5⟩ (by decide)

/-- C10: when a date-typed column's nonempty string value is rejected by
every configured format and by the fallback parser, `parse_cell` returns
the record exactly as it received it, whatever the rest of the parser's
configuration: the merge, split, propagation and cancellation steps are
all skipped, so in particular a cancellation mark on the cell cannot set
the cancelled flag and the column's previous value survives. -/
theorem c10_unparseable_date_leaves_record_unchanged
    (col : String) (xc : Option String) (im : InsMethod) (prop chk : Bool)
    (mark : Option CancelMark) (colours : List String) (fmts : List (List Dir))
    (offs : List (String × Int)) (grid : SheetGrid) (c : Cell) (rec : Record)
    (prev : Option Record) (s : String)
    (hv : c.value = .vstr s) (hs : s ≠ "")
    (h1 : ∀ g ∈ fmts, strptimeDate (pyStrip s) g = none)
    (h2 : fallbackParseDate s = none) :
    parse_cell ⟨col, .cdate, xc, im, prop, chk, mark, colours, fmts, offs, []⟩
      grid c rec prev = .ok rec :=
  parse_cell_early_return _ grid c rec prev (.vstr s)
    (by rw [hv]; exact transformStep_empty _ _ rfl)
    (by
      simp only [dateRecovery, if_pos]
      exact dateRecoveryStr_fails _ _ hs (tryFormats_all_none fmts _ h1) h2)

/-- C10 witness: an unparseable date in a cell with a matching cancelled
background colour, for a parser with split, append, propagation and
background cancellation configured, still leaves the prior record —
including its surgical date and unset cancelled flag — exactly as it was. -/
theorem c10_unparseable_date_witness :
    parse_cell ⟨"surgical_date", .cdate, some "surgical_notes", .append, true, true,
        some .background, ["ff0000"], [dmyFmt], [], []⟩
      emptyGrid ⟨.vstr "99/99/9999", ⟨false, false, "ff0000", "000000"⟩, 2, 0⟩
      [("surgical_date", .vdate ⟨2024, 1, 5⟩)] (some [("surgical_date", .vstr "x")])
      = .ok [("surgical_date", .vdate ⟨2024, 1, 5⟩)] :=
  c10_unparseable_date_leaves_record_unchanged "surgical_date" (some "surgical_notes")
    .append true true (some .background) ["ff0000"] [dmyFmt] []
    emptyGrid ⟨.vstr "99/99/9999", ⟨false, false, "ff0000", "000000"⟩, 2, 0⟩
    [("surgical_date", .vdate ⟨2024, 1, 5⟩)] (some [("surgical_date", .vstr "x")])
    "99/99/9999" rfl (by decide) (by decide) (by decide)

/-! Claim C9: value-transformer lookup. -/

theorem find_map_keys (offs : List (String × Int)) (f : String × Int → PyDate) (s : String) :
    (offs.map (fun kv => (kv.1, f kv))).find? (fun kv => kv.1 = s)
      = (offs.find? (fun kv => kv.1 = s)).map (fun kv => (kv.1, f kv)) := by
  induction offs with
  | nil => rfl
  | cons kv rest ih =>
      by_cases h : kv.1 = s
      · simp [List.find?, h]
      · simp only [List.map_cons, List.find?]
        rw [show (decide (kv.1 = s)) = false by simp [h]]
        simpa using ih

/-- C9 counterexample: with a day-offset mapping configured and the date
basis set, a non-empty cell whose text (`"TUE"`) matches no configured
key does not pass through unchanged — the transformer dict lookup raises
`KeyError` and `parse_cell` fails, contradicting the claim's
skip-and-continue behaviour. -/
theorem c9_counterexample_nonmatching_key_raises :
    parse_cell
        (set_date_basis
          ⟨"surgical_date", .cdate, none, .replace, false, false, none, [], [],
            [("MON", 0)], []⟩ ⟨2024, 1, 1⟩)
        emptyGrid (mkcell (.vstr "TUE") 2 0) [] (some [])
      = .error .keyError := by decide

/-- C9 amended: for a parser with a day-offset mapping and the date basis
set for the sheet, part 1: a cell whose raw text equals a configured key
has its value replaced by (date basis + that key's offset in days) before
the remaining steps run, so the parsed record holds that date; part 2: a
non-empty cell whose raw text matches no configured key makes the
transformer lookup raise `KeyError`, failing `parse_cell` (the value does
not pass through). -/
theorem c9_day_offset_lookup :
    (∀ (col : String) (fmts : List (List Dir)) (offs : List (String × Int)) (basis : PyDate)
       (grid : SheetGrid) (c : Cell) (rec : Record) (prev : Option Record) (s : String)
       (kv : String × Int),
       c.value = .vstr s → s ≠ "" →
       offs.find? (fun e => e.1 = s) = some kv →
       parse_cell (set_date_basis ⟨col, .cdate, none, .replace, false, false, none, [], fmts,
           offs, []⟩ basis) grid c rec prev
         = .ok (rset rec col (.vdate (addDays basis kv.2)))) ∧
    (∀ (col : String) (ty : CType) (xc : Option String) (im : InsMethod)
       (mark : Option CancelMark) (colours : List String) (fmts : List (List Dir))
       (offs : List (String × Int)) (basis : PyDate)
       (grid : SheetGrid) (c : Cell) (rec : Record) (prev : Option Record) (s : String),
       c.value = .vstr s → s ≠ "" → offs ≠ [] →
       offs.find? (fun e => e.1 = s) = none →
       parse_cell (set_date_basis ⟨col, ty, xc, im, false, false, mark, colours, fmts,
           offs, []⟩ basis) grid c rec prev
         = .error .keyError) := by
  constructor
  · intro col fmts offs basis grid c rec prev s kv hv hs hfind
    have hoffs : offs ≠ [] := by
      intro he
      rw [he] at hfind
      simp [List.find?] at hfind
    have h1 : transformStep (set_date_basis ⟨col, .cdate, none, .replace, false, false, none,
        [], fmts, offs, []⟩ basis) c.value = .ok (.vdate (addDays basis kv.2)) := by
      rw [hv, transformStep, if_pos]
      · rw [transformLookup]
        show (match (offs.map (fun e => (e.1, addDays basis e.2))).find? (fun e => e.1 = s) with
          | some e => Except.ok (PyVal.vdate e.2)
          | none => Except.error PyErr.keyError) = _
        rw [show (offs.map (fun e => (e.1, addDays basis e.2))).find? (fun e => e.1 = s)
            = some (kv.1, addDays basis kv.2) by
          rw [find_map_keys offs (fun e => addDays basis e.2) s, hfind]; rfl]
      · constructor
        · show (offs.map (fun e => (e.1, addDays basis e.2))) ≠ []
          simpa using hoffs
        · simp [pyTruthy, hs]
    have hres := parse_cell_steps_ok _ grid c rec prev (.vdate (addDays basis kv.2))
      (.vdate (addDays basis kv.2)) (rset rec col (.vdate (addDays basis kv.2)))
      (rset rec col (.vdate (addDays basis kv.2))) (rset rec col (.vdate (addDays basis kv.2)))
      h1
      (dateRecovery_notstr _ _ (by intro t ht; cases ht))
      (by rw [coerce_vdate]; exact mergeStep_replace _ _ _ rfl)
      (by rw [coerce_vdate]; exact splitStep_nocol _ _ _ rfl)
      (propagateStep_off _ _ _ _ _ rfl)
    rw [hres, cancelStep_nomark _ _ _ rfl]
  · intro col ty xc im mark colours fmts offs basis grid c rec prev s hv hs hoffs hfind
    apply parse_cell_err_transform _ grid c rec prev .keyError
    rw [hv, transformStep, if_pos]
    · rw [transformLookup]
      show (match (offs.map (fun e => (e.1, addDays basis e.2))).find? (fun e => e.1 = s) with
        | some e => Except.ok (PyVal.vdate e.2)
        | none => Except.error PyErr.keyError) = _
      rw [show (offs.map (fun e => (e.1, addDays basis e.2))).find? (fun e => e.1 = s) = none by
        rw [find_map_keys offs (fun e => addDays basis e.2) s, hfind]; rfl]
    · constructor
      · show (offs.map (fun e => (e.1, addDays basis e.2))) ≠ []
        simpa using hoffs
      · simp [pyTruthy, hs]

/-- C9 witness: with basis 2024-01-01 and offsets `MON ↦ 0`, `WED ↦ 2`, a
`"WED"` cell parses to 2024-01-03, and a `"TUE"` cell raises `KeyError`. -/
theorem c9_day_offset_witness :
    parse_cell (set_date_basis ⟨"surgical_date", .cdate, none, .replace, false, false, none,
        [], [], [("MON", 0), ("WED", 2)], []⟩ ⟨2024, 1, 1⟩)
      emptyGrid (mkcell (.vstr "WED") 2 0) [] (some [])
      = .ok [("surgical_date", .vdate ⟨2024, 1, 3⟩)] ∧
    parse_cell (set_date_basis ⟨"surgical_date", .cdate, none, .replace, false, false, none,
        [], [], [("MON", 0), ("WED", 2)], []⟩ ⟨2024, 1, 1⟩)
      emptyGrid (mkcell (.vstr "TUE") 2 0) [] (some [])
      = .error .keyError := by
  constructor
  · have := c9_day_offset_lookup.1 "surgical_date" [] [("MON", 0), ("WED", 2)] ⟨2024, 1, 1⟩
      emptyGrid (mkcell (.vstr "WED") 2 0) [] (some []) "WED" ("WED", 2)
      rfl (by decide) (by decide)
    rw [this]
    decide
  · exact c9_day_offset_lookup.2 "surgical_date" .cdate none .replace none [] []
      [("MON", 0), ("WED", 2)] ⟨2024, 1, 1⟩ emptyGrid (mkcell (.vstr "TUE") 2 0) [] (some [])
      "TUE" rfl (by decide) (by decide) (by decide)

/-! Claim C5: cancellation detection. -/

theorem mergeStep_keeps_other (p : FieldParser) (rec : Record) (v : PyVal) (r1 : Record)
    (k : String) (hk : k ≠ p.db_col_name) (h : mergeStep p rec v = .ok r1) :
    rget r1 k = rget rec k := by
  rw [mergeStep] at h
  split at h
  · cases hav : appendVals (rget rec p.db_col_name) v with
    | ok w =>
        rw [hav] at h
        cases h
        exact rget_rset_other _ _ _ _ hk
    | error e => rw [hav] at h; cases h
  · cases h
    exact rget_rset_other _ _ _ _ hk

theorem splitStep_keeps_other (p : FieldParser) (rec : Record) (v : PyVal) (r1 : Record)
    (k : String) (hk : k ≠ p.db_col_name) (hx : p.extra_column_name ≠ some k)
    (h : splitStep p rec v = .ok r1) : rget r1 k = rget rec k := by
  rw [splitStep] at h
  split at h
  · cases h; rfl
  · next xc heq =>
      have hxk : k ≠ xc := by
        intro he
        exact hx (by rw [heq, he])
      split at h
      · cases v with
        | vstr s =>
            rw [splitVal] at h
            split at h
            · cases h
            · cases h
              rw [rget_rset_other _ _ _ _ hxk, rget_rset_other _ _ _ _ hk]
            · cases h
              rw [rget_rset_other _ _ _ _ hxk, rget_rset_other _ _ _ _ hk]
        | vnone => simp [splitVal] at h
        | vdate _ => simp [splitVal] at h
        | vdtime _ _ _ _ => simp [splitVal] at h
        | vbool _ => simp [splitVal] at h
        | vint _ => simp [splitVal] at h
      · cases h; rfl

theorem cancelStep_true_mono (p : FieldParser) (c : Cell) (rec : Record)
    (h : rget rec "cancelled" = .vbool true) :
    rget (cancelStep p c rec) "cancelled" = .vbool true := by
  rw [cancelStep]
  split
  · exact h
  · split
    · split
      · exact rget_rset_self _ _ _
      · exact h
    · exact h

theorem parseCellNoPrev_cancel_mono (p : FieldParser) (c : Cell) (rec r' : Record)
    (hcol : p.db_col_name ≠ "cancelled") (hxc : p.extra_column_name ≠ some "cancelled")
    (h : parseCellNoPrev p c rec = .ok r')
    (ht : rget rec "cancelled" = .vbool true) : rget r' "cancelled" = .vbool true := by
  cases h1 : transformStep p c.value with
  | error e =>
      simp only [parseCellNoPrev, h1] at h
      exact Except.noConfusion h
  | ok v1 =>
      cases h2 : dateRecovery p v1 with
      | none =>
          simp only [parseCellNoPrev, h1, h2] at h
          cases h
          exact ht
      | some v2 =>
          cases h3 : mergeStep p rec (coerceBool p (coerceDatetime p v2)) with
          | error e =>
              simp only [parseCellNoPrev, h1, h2, h3] at h
              exact Except.noConfusion h
          | ok rec1 =>
              cases h4 : splitStep p rec1 (coerceBool p (coerceDatetime p v2)) with
              | error e =>
                  simp only [parseCellNoPrev, h1, h2, h3, h4] at h
                  exact Except.noConfusion h
              | ok rec2 =>
                  simp only [parseCellNoPrev, h1, h2, h3, h4, Except.ok.injEq] at h
                  subst h
                  apply cancelStep_true_mono
                  rw [splitStep_keeps_other p rec1 _ rec2 _ (Ne.symm hcol) hxc h4,
                    mergeStep_keeps_other p rec _ rec1 _ (Ne.symm hcol) h3]
                  exact ht

theorem propagateStep_cancel_mono (p : FieldParser) (grid : SheetGrid) (c : Cell)
    (rec r' : Record) (prev : Option Record)
    (hcol : p.db_col_name ≠ "cancelled") (hxc : p.extra_column_name ≠ some "cancelled")
    (h : propagateStep p grid c rec prev = .ok r')
    (ht : rget rec "cancelled" = .vbool true) : rget r' "cancelled" = .vbool true := by
  rw [propagateStep] at h
  split at h
  · cases hin : (if p.check_next_first ∧ prev.isSome then
        parseCellNoPrev p (grid (c.row + 1) c.col) rec else .ok rec) with
    | error e => rw [hin] at h; cases h
    | ok rec1 =>
        rw [hin] at h
        cases h
        have ht1 : rget rec1 "cancelled" = .vbool true := by
          split at hin
          · exact parseCellNoPrev_cancel_mono p _ rec rec1 hcol hxc hin ht
          · cases hin; exact ht
        cases prev with
        | none => exact ht1
        | some pr =>
            rw [propagateFromPrev]
            split
            · rw [rget_rset_other _ _ _ _ (Ne.symm hcol)]
              exact ht1
            · exact ht1
  · cases h; exact ht

theorem parse_cell_cancel_mono (p : FieldParser) (grid : SheetGrid) (c : Cell)
    (rec r' : Record) (prev : Option Record)
    (hcol : p.db_col_name ≠ "cancelled") (hxc : p.extra_column_name ≠ some "cancelled")
    (h : parse_cell p grid c rec prev = .ok r')
    (ht : rget rec "cancelled" = .vbool true) : rget r' "cancelled" = .vbool true := by
  cases h1 : transformStep p c.value with
  | error e =>
      simp only [parse_cell, h1] at h
      exact Except.noConfusion h
  | ok v1 =>
      cases h2 : dateRecovery p v1 with
      | none =>
          simp only [parse_cell, h1, h2] at h
          cases h
          exact ht
      | some v2 =>
          cases h3 : mergeStep p rec (coerceBool p (coerceDatetime p v2)) with
          | error e =>
              simp only [parse_cell, h1, h2, h3] at h
              exact Except.noConfusion h
          | ok rec1 =>
              cases h4 : splitStep p rec1 (coerceBool p (coerceDatetime p v2)) with
              | error e =>
                  simp only [parse_cell, h1, h2, h3, h4] at h
                  exact Except.noConfusion h
              | ok rec2 =>
                  cases h5 : propagateStep p grid c rec2 prev with
                  | error e =>
                      simp only [parse_cell, h1, h2, h3, h4, h5] at h
                      exact Except.noConfusion h
                  | ok rec3 =>
                      simp only [parse_cell, h1, h2, h3, h4, h5, Except.ok.injEq] at h
                      subst h
                      apply cancelStep_true_mono
                      apply propagateStep_cancel_mono p grid c rec2 rec3 prev hcol hxc h5
                      rw [splitStep_keeps_other p rec1 _ rec2 _ (Ne.symm hcol) hxc h4,
                        mergeStep_keeps_other p rec _ rec1 _ (Ne.symm hcol) h3]
                      exact ht

/-- C5: cancellation detection in `parse_cell`.  Part 1: for a colour
mode (background or foreground), the cancelled flag is set to true when
the read colour matches one of the configured trigger colours
case-insensitively (the constructor lowercases the configured colours,
and the access layer supplies lowercase hex strings).  Part 2: a
non-matching colour leaves the record's cancelled field exactly as it
was.  Part 3: for the strike and red modes, any truthy reading sets the
flag.  Part 4: the step never writes false — a cancelled field already
true is still true after any `parse_cell` whose target columns are not
the cancelled field itself. -/
theorem c5_cancellation_flag_semantics :
    (∀ (col : String) (cfgCols : List String) (m : CancelMark) (bg : String)
       (grid : SheetGrid) (c : Cell) (rec : Record) (prev : Option Record),
       c.value = .vnone → isGroundMark m = true → markVal m c.font = .vstr bg →
       pyLower bg = bg → bg ≠ "" → (∃ t ∈ cfgCols, pyLower t = pyLower bg) →
       parse_cell ⟨col, .cstring, none, .replace, false, false, some m,
           cfgCols.map pyLower, [], [], []⟩ grid c rec prev
         = .ok (rset (rset rec col .vnone) "cancelled" (.vbool true))) ∧
    (∀ (col : String) (cfgCols : List String) (m : CancelMark) (bg : String)
       (grid : SheetGrid) (c : Cell) (rec : Record) (prev : Option Record),
       c.value = .vnone → isGroundMark m = true → markVal m c.font = .vstr bg →
       pyLower bg = bg → (¬∃ t ∈ cfgCols, pyLower t = pyLower bg) →
       parse_cell ⟨col, .cstring, none, .replace, false, false, some m,
           cfgCols.map pyLower, [], [], []⟩ grid c rec prev
         = .ok (rset rec col .vnone)) ∧
    (∀ (col : String) (colours : List String) (m : CancelMark)
       (grid : SheetGrid) (c : Cell) (rec : Record) (prev : Option Record),
       c.value = .vnone → isGroundMark m = false → pyTruthy (markVal m c.font) = true →
       parse_cell ⟨col, .cstring, none, .replace, false, false, some m, colours, [], [], []⟩
           grid c rec prev
         = .ok (rset (rset rec col .vnone) "cancelled" (.vbool true))) ∧
    (∀ (p : FieldParser) (grid : SheetGrid) (c : Cell) (rec r' : Record)
       (prev : Option Record),
       parse_cell p grid c rec prev = .ok r' →
       p.db_col_name ≠ "cancelled" → p.extra_column_name ≠ some "cancelled" →
       rget rec "cancelled" = .vbool true → rget r' "cancelled" = .vbool true) := by
  have base : ∀ (col : String) (colours : List String) (m : CancelMark)
      (grid : SheetGrid) (c : Cell) (rec : Record) (prev : Option Record),
      c.value = .vnone →
      parse_cell ⟨col, .cstring, none, .replace, false, false, some m, colours, [], [], []⟩
          grid c rec prev
        = .ok (cancelStep ⟨col, .cstring, none, .replace, false, false, some m, colours,
            [], [], []⟩ c (rset rec col .vnone)) := by
    intro col colours m grid c rec prev hv
    exact parse_cell_steps_ok _ grid c rec prev .vnone .vnone (rset rec col .vnone)
      (rset rec col .vnone) (rset rec col .vnone)
      (by rw [hv]; exact transformStep_vnone _)
      (dateRecovery_vnone _)
      (by rw [coerceDatetime_vnone, coerceBool_vnone]; exact mergeStep_vnone _ _)
      (by rw [coerceDatetime_vnone, coerceBool_vnone]; exact splitStep_vnone _ _)
      (propagateStep_off _ _ _ _ _ rfl)
  refine ⟨?_, ?_, ?_,
    fun p grid c rec r' prev h hcol hxc ht =>
      parse_cell_cancel_mono p grid c rec r' prev hcol hxc h ht⟩
  · intro col cfgCols m bg grid c rec prev hv hg hmark hlc hbg hmem
    obtain ⟨t, htm, hte⟩ := hmem
    have hbgmem : bg ∈ cfgCols.map pyLower :=
      List.mem_map.mpr ⟨t, htm, by rw [hte, hlc]⟩
    rw [base col (cfgCols.map pyLower) m grid c rec prev hv]
    rw [cancelStep]
    show Except.ok (if pyTruthy (markVal m c.font) = true then _ else _) = _
    rw [hmark]
    rw [if_pos (by simp [pyTruthy, hbg])]
    rw [if_pos (by
      simp only [markInColours, Bool.or_eq_true, List.contains_iff_exists_mem_beq]
      exact Or.inr ⟨bg, hbgmem, by simp⟩)]
  · intro col cfgCols m bg grid c rec prev hv hg hmark hlc hmem
    rw [base col (cfgCols.map pyLower) m grid c rec prev hv]
    rw [cancelStep]
    show Except.ok (if pyTruthy (markVal m c.font) = true then _ else _) = _
    by_cases hbg : bg = ""
    · rw [hmark, if_neg (by simp [pyTruthy, hbg])]
    · rw [hmark, if_pos (by simp [pyTruthy, hbg])]
      rw [if_neg (by
        intro hcond
        rw [hg] at hcond
        simp only [markInColours, Bool.not_true, Bool.false_or,
          List.contains_iff_exists_mem_beq] at hcond
        obtain ⟨u, hu, hub⟩ := hcond
        obtain ⟨t, htm, hte⟩ := List.mem_map.mp hu
        apply hmem
        refine ⟨t, htm, ?_⟩
        rw [hte, hlc]
        exact (beq_iff_eq.mp hub).symm)]
  · intro col colours m grid c rec prev hv hg hmark
    rw [base col colours m grid c rec prev hv]
    rw [cancelStep]
    show Except.ok (if pyTruthy (markVal m c.font) = true then _ else _) = _
    rw [if_pos (by rw [hmark]), if_pos (by rw [hg]; rfl)]

/-- C5 witness: a red background cell sets the cancelled flag under a
`["FF0000"]` trigger configuration; a green one leaves it unset; a
strikethrough cell sets it under strike mode; and a record already
cancelled stays cancelled after a further `parse_cell`. -/
theorem c5_cancellation_witness :
    parse_cell ⟨"surgical_procedure", .cstring, none, .replace, false, false, some .background,
        ["FF0000"].map pyLower, [], [], []⟩
      emptyGrid ⟨.vnone, ⟨false, false, "ff0000", "000000"⟩, 2, 0⟩ [] none
      = .ok [("surgical_procedure", .vnone), ("cancelled", .vbool true)] ∧
    parse_cell ⟨"surgical_procedure", .cstring, none, .replace, false, false, some .background,
        ["FF0000"].map pyLower, [], [], []⟩
      emptyGrid ⟨.vnone, ⟨false, false, "00ff00", "000000"⟩, 2, 0⟩ [] none
      = .ok [("surgical_procedure", .vnone)] ∧
    parse_cell ⟨"surgical_procedure", .cstring, none, .replace, false, false, some .strike,
        [], [], [], []⟩
      emptyGrid ⟨.vnone, ⟨true, false, "ffffff", "000000"⟩, 2, 0⟩ [] none
      = .ok [("surgical_procedure", .vnone), ("cancelled", .vbool true)] ∧
    rget [("cancelled", .vbool true), ("surgical_notes", .vnone)] "cancelled"
      = .vbool true := by
  refine ⟨?_, ?_, ?_, ?_⟩
  · exact c5_cancellation_flag_semantics.1 "surgical_procedure" ["FF0000"] .background
      "ff0000" emptyGrid ⟨.vnone, ⟨false, false, "ff0000", "000000"⟩, 2, 0⟩ [] none
      rfl rfl rfl (by decide) (by decide) ⟨"FF0000", by decide, by decide⟩
  · exact c5_cancellation_flag_semantics.2.1 "surgical_procedure" ["FF0000"] .background
      "00ff00" emptyGrid ⟨.vnone, ⟨false, false, "00ff00", "000000"⟩, 2, 0⟩ [] none
      rfl rfl rfl (by decide) (by decide)
  · exact c5_cancellation_flag_semantics.2.2.1 "surgical_procedure" [] .strike
      emptyGrid ⟨.vnone, ⟨true, false, "ffffff", "000000"⟩, 2, 0⟩ [] none
      rfl rfl rfl
  · exact c5_cancellation_flag_semantics.2.2.2
      ⟨"surgical_notes", .ctext, none, .replace, false, false, none, [], [], [], []⟩
      emptyGrid (mkcell .vnone 2 0) [("cancelled", .vbool true)]
      [("cancelled", .vbool true), ("surgical_notes", .vnone)] none
      (by decide) (by decide) (by decide) (by decide)

/-! Claim C3: update semantics of reconciliation. -/

theorem pick_map_of_ne_none {α β : Type} (f : α → β) (a b : Option α)
    (h : a.map f ≠ none) : (pick a b).map f = a.map f := by
  cases a with
  | some v => rfl
  | none => simp at h

theorem pick_map_of_none {α β : Type} (f : α → β) (a b : Option α)
    (h : a.map f = none) : (pick a b).map f = b.map f := by
  cases a with
  | some v => simp at h
  | none => rfl

/-- C3: `Procedure.update` copies, for each storage column except the
auto-generated `procedure_id`, the candidate's value onto the existing
record exactly when that value is non-null; a null candidate value leaves
the existing record's stored value unchanged, and the identity column is
never copied. -/
theorem c3_update_copies_nonnull_columns (e o : ProcRow) (col : PCol) :
    (col ≠ .procedure_id → getProcCol o col ≠ none →
      getProcCol (procUpdate e o) col = getProcCol o col) ∧
    (col ≠ .procedure_id → getProcCol o col = none →
      getProcCol (procUpdate e o) col = getProcCol e col) ∧
    getProcCol (procUpdate e o) .procedure_id = getProcCol e .procedure_id := by
  refine ⟨?_, ?_, rfl⟩
  · intro hne hv
    cases col with
    | procedure_id => exact absurd rfl hne
    | idmrn => exact pick_map_of_ne_none _ _ _ hv
    | surgical_procedure => exact pick_map_of_ne_none _ _ _ hv
    | surgical_date => exact pick_map_of_ne_none _ _ _ hv
    | surgical_priority => exact pick_map_of_ne_none _ _ _ hv
    | surgical_consultant => exact pick_map_of_ne_none _ _ _ hv
    | surgical_pathway => exact pick_map_of_ne_none _ _ _ hv
    | surgical_notes => exact pick_map_of_ne_none _ _ _ hv
    | pacu_request => exact pick_map_of_ne_none _ _ _ hv
    | cancelled => exact pick_map_of_ne_none _ _ _ hv
  · intro hne hv
    cases col with
    | procedure_id => exact absurd rfl hne
    | idmrn => exact pick_map_of_none _ _ _ hv
    | surgical_procedure => exact pick_map_of_none _ _ _ hv
    | surgical_date => exact pick_map_of_none _ _ _ hv
    | surgical_priority => exact pick_map_of_none _ _ _ hv
    | surgical_consultant => exact pick_map_of_none _ _ _ hv
    | surgical_pathway => exact pick_map_of_none _ _ _ hv
    | surgical_notes => exact pick_map_of_none _ _ _ hv
    | pacu_request => exact pick_map_of_none _ _ _ hv
    | cancelled => exact pick_map_of_none _ _ _ hv

/-- C3 witness: updating a stored row with a candidate holding a new
consultant but a null priority copies the consultant, keeps the stored
priority, and keeps the identity. -/
theorem c3_update_witness :
    getProcCol
      (procUpdate
        ⟨some (.vint 7), some "001", some "Knee", some ⟨2024, 1, 5⟩, some "urgent",
          some "Dr A", some "ortho", none, none, some false⟩
        ⟨none, some "001", some "Knee", some ⟨2024, 1, 5⟩, none, some "Dr B", some "ortho",
          none, none, some false⟩)
      .surgical_consultant = some (.vstr "Dr B") ∧
    getProcCol
      (procUpdate
        ⟨some (.vint 7), some "001", some "Knee", some ⟨2024, 1, 5⟩, some "urgent",
          some "Dr A", some "ortho", none, none, some false⟩
        ⟨none, some "001", some "Knee", some ⟨2024, 1, 5⟩, none, some "Dr B", some "ortho",
          none, none, some false⟩)
      .surgical_priority = some (.vstr "urgent") ∧
    getProcCol
      (procUpdate
        ⟨some (.vint 7), some "001", some "Knee", some ⟨2024, 1, 5⟩, some "urgent",
          some "Dr A", some "ortho", none, none, some false⟩
        ⟨none, some "001", some "Knee", some ⟨2024, 1, 5⟩, none, some "Dr B", some "ortho",
          none, none, some false⟩)
      .procedure_id = some (.vint 7) := by
  refine ⟨?_, ?_, ?_⟩
  · rw [(c3_update_copies_nonnull_columns _ _ .surgical_consultant).1 (by decide) (by decide)]
    decide
  · rw [(c3_update_copies_nonnull_columns _ _ .surgical_priority).2.1 (by decide) (by decide)]
    decide
  · exact (c3_update_copies_nonnull_columns
      ⟨some (.vint 7), some "001", some "Knee", some ⟨2024, 1, 5⟩, some "urgent",
        some "Dr A", some "ortho", none, none, some false⟩
      ⟨none, some "001", some "Knee", some ⟨2024, 1, 5⟩, none, some "Dr B", some "ortho",
        none, none, some false⟩ .procedure_id).2.2

/-! Claim C2: required-field gate. -/

/-- C2: a parsed record that lacks a present, truthy value for any
storage column that is not nullable, not auto-generated and without a
default is never persisted: the storage step leaves the store exactly as
it was, regardless of the record's other fields. -/
theorem c2_required_field_gate (st : Store) (rec : Record) (f : ColMeta)
    (hmem : f ∈ all_db_columns) (hreq : requiredCol f = true)
    (hmiss : pyTruthy (rget rec f.name) = false) :
    dbStep st rec = .ok st := by
  have hgate : has_required_fields rec = false := by
    rw [has_required_fields]
    rw [List.all_eq_false]
    exact ⟨f, hmem, by simp [hreq, hmiss]⟩
  rw [dbStep, if_neg (by simp [hgate])]

/-- C2 witness: a record with every field except the surgical pathway is
not persisted into the empty store. -/
theorem c2_required_field_witness :
    dbStep ⟨[], []⟩
      [("idmrn", .vstr "001"), ("patient_given_name", .vstr "Alice"),
       ("patient_family_name", .vstr "Smith"), ("surgical_procedure", .vstr "Knee"),
       ("surgical_date", .vdate ⟨2024, 1, 5⟩)]
      = .ok ⟨[], []⟩ :=
  c2_required_field_gate ⟨[], []⟩ _ ⟨"surgical_pathway", .cstring, false, false, false⟩
    (by decide) (by decide) (by decide)

/-! Claim C8: configuration error handling. -/

/-- C8 counterexample: a configuration whose only key is an unknown
global setting passes `read_config`'s global-settings loop without any
error — unknown settings are silently ignored, not rejected. -/
theorem c8_counterexample_unknown_setting_ignored :
    read_config_globals [("unknown_setting", .yint 3)] = .ok [] := rfl

theorem readGlobals_mistyped_err (spec : List (String × PyType))
    (contents : List (String × YVal)) (s : String) (ty : PyType) (v : YVal)
    (hmem : (s, ty) ∈ spec) (hlk : yLookup contents s = some v)
    (hbad : isinstance v ty = false) :
    ∃ e : CfgErr, readGlobals spec contents = .error e ∧
      ∃ s' ty' v', (s', ty') ∈ spec ∧ yLookup contents s' = some v' ∧
        isinstance v' ty' = false ∧ e = ⟨s', pyTypeName ty', yTypeName v'⟩ := by
  induction spec with
  | nil => cases hmem
  | cons hd rest ih =>
      obtain ⟨a, tya⟩ := hd
      cases hl : yLookup contents a with
      | none =>
          have hmem' : (s, ty) ∈ rest := by
            cases List.mem_cons.mp hmem with
            | inl he =>
                cases he
                rw [hlk] at hl
                cases hl
            | inr h => exact h
          obtain ⟨e, herr, s', ty', v', hm', hl', hb', he'⟩ := ih hmem'
          simp only [readGlobals, hl]
          exact ⟨e, herr, s', ty', v', List.mem_cons_of_mem _ hm', hl', hb', he'⟩
      | some w =>
          by_cases hinst : isinstance w tya = true
          · have hmem' : (s, ty) ∈ rest := by
              cases List.mem_cons.mp hmem with
              | inl he =>
                  cases he
                  rw [hlk] at hl
                  cases hl
                  rw [hinst] at hbad
                  cases hbad
              | inr h => exact h
            obtain ⟨e, herr, s', ty', v', hm', hl', hb', he'⟩ := ih hmem'
            simp only [readGlobals, hl, hinst, if_true, herr]
            exact ⟨e, rfl, s', ty', v', List.mem_cons_of_mem _ hm', hl', hb', he'⟩
          · simp only [readGlobals, hl]
            rw [if_neg hinst]
            exact ⟨⟨a, pyTypeName tya, yTypeName w⟩, rfl, a, tya, w, List.mem_cons_self _ _,
              hl, by simpa using hinst, rfl⟩

/-- C8 amended: `read_config` raises a fatal error, before any ingestion,
whenever a recognised global setting (`surgical_pathway`,
`surgical_consultant`, `sheets`, `week_start_date_cell`, `heading_row`)
is present with a value of the wrong type, and the raised error reports
the expected versus actual type of a mistyped recognised setting; unknown
global settings, however, are silently ignored rather than rejected. -/
theorem c8_mistyped_setting_is_fatal (contents : List (String × YVal))
    (s : String) (ty : PyType) (v : YVal)
    (hmem : (s, ty) ∈ settingsSpec) (hlk : yLookup contents s = some v)
    (hbad : isinstance v ty = false) :
    ∃ e : CfgErr, read_config_globals contents = .error e ∧
      ∃ s' ty' v', (s', ty') ∈ settingsSpec ∧ yLookup contents s' = some v' ∧
        isinstance v' ty' = false ∧ e = ⟨s', pyTypeName ty', yTypeName v'⟩ :=
  readGlobals_mistyped_err settingsSpec contents s ty v hmem hlk hbad

/-- C8 witness: a string-valued `sheets` setting is fatal, and the error
reports expected `list` versus actual `str`. -/
theorem c8_mistyped_setting_witness :
    ∃ e : CfgErr, read_config_globals [("sheets", .ystr "oops")] = .error e ∧
      ∃ s' ty' v', (s', ty') ∈ settingsSpec ∧
        yLookup [("sheets", .ystr "oops")] s' = some v' ∧
        isinstance v' ty' = false ∧ e = ⟨s', pyTypeName ty', yTypeName v'⟩ :=
  c8_mistyped_setting_is_fatal [("sheets", .ystr "oops")] "sheets" .plist (.ystr "oops")
    (by decide) rfl (by decide)

/-! Claim C1: idempotence of ingestion.  The proof characterises both
ingestion passes by the per-key folds `F` and shows the second pass is a
fixpoint.  The algebra of `Procedure.update` is handled field by field
through `pick`. -/

theorem pick_assoc {α : Type} (a b c : Option α) :
    pick a (pick b c) = pick (pick a b) c := by
  cases a <;> cases b <;> rfl

theorem pick_none_right {α : Type} (a : Option α) : pick a none = a := by
  cases a <;> rfl

theorem pick_idem_chain {α : Type} (a b : Option α) : pick a (pick a b) = pick a b := by
  cases a <;> rfl

/-- Accumulated pick over a list of optional values, later entries first. -/
def foldPickList {α : Type} (l : List (Option α)) : Option α :=
  l.foldl (fun acc x => pick x acc) none

theorem foldl_pick_eq {α : Type} (l : List (Option α)) (a : Option α) :
    l.foldl (fun acc x => pick x acc) a = pick (foldPickList l) a := by
  induction l generalizing a with
  | nil => cases a <;> rfl
  | cons x l ih =>
      show l.foldl _ (pick x a) = pick (foldPickList (x :: l)) a
      rw [ih (pick x a)]
      show _ = pick (l.foldl _ (pick x none)) a
      rw [ih (pick x none), pick_none_right, pick_assoc]

theorem foldPickList_cons {α : Type} (x : Option α) (l : List (Option α)) :
    foldPickList (x :: l) = pick (foldPickList l) x := by
  show l.foldl _ (pick x none) = _
  rw [foldl_pick_eq, pick_none_right]

theorem fold_update_field {β : Type} (g : ProcRow → Option β)
    (hg : ∀ e o, g (procUpdate e o) = pick (g o) (g e)) (x : ProcRow) (cs : List ProcRow) :
    g (List.foldl procUpdate x cs) = pick (foldPickList (cs.map g)) (g x) := by
  induction cs generalizing x with
  | nil => rfl
  | cons c cs ih =>
      show g (List.foldl procUpdate (procUpdate x c) cs) = _
      rw [ih (procUpdate x c), hg x c, pick_assoc, List.map_cons, foldPickList_cons]

theorem fold_update_pid (x : ProcRow) (cs : List ProcRow) :
    (List.foldl procUpdate x cs).procedure_id = x.procedure_id := by
  induction cs generalizing x with
  | nil => rfl
  | cons c cs ih => exact ih (procUpdate x c)

theorem procRow_eq (p q : ProcRow)
    (h0 : p.procedure_id = q.procedure_id) (h1 : p.idmrn = q.idmrn)
    (h2 : p.surgical_procedure = q.surgical_procedure)
    (h3 : p.surgical_date = q.surgical_date)
    (h4 : p.surgical_priority = q.surgical_priority)
    (h5 : p.surgical_consultant = q.surgical_consultant)
    (h6 : p.surgical_pathway = q.surgical_pathway)
    (h7 : p.surgical_notes = q.surgical_notes)
    (h8 : p.pacu_request = q.pacu_request)
    (h9 : p.cancelled = q.cancelled) : p = q := by
  cases p
  cases q
  simp_all

theorem fold_update_twice (v : ProcRow) (cs : List ProcRow) :
    List.foldl procUpdate (List.foldl procUpdate v cs) cs = List.foldl procUpdate v cs := by
  apply procRow_eq
  · rw [fold_update_pid, fold_update_pid]
  · rw [fold_update_field ProcRow.idmrn (fun e o => rfl),
      fold_update_field ProcRow.idmrn (fun e o => rfl), pick_idem_chain]
  · rw [fold_update_field ProcRow.surgical_procedure (fun e o => rfl),
      fold_update_field ProcRow.surgical_procedure (fun e o => rfl), pick_idem_chain]
  · rw [fold_update_field ProcRow.surgical_date (fun e o => rfl),
      fold_update_field ProcRow.surgical_date (fun e o => rfl), pick_idem_chain]
  · rw [fold_update_field ProcRow.surgical_priority (fun e o => rfl),
      fold_update_field ProcRow.surgical_priority (fun e o => rfl), pick_idem_chain]
  · rw [fold_update_field ProcRow.surgical_consultant (fun e o => rfl),
      fold_update_field ProcRow.surgical_consultant (fun e o => rfl), pick_idem_chain]
  · rw [fold_update_field ProcRow.surgical_pathway (fun e o => rfl),
      fold_update_field ProcRow.surgical_pathway (fun e o => rfl), pick_idem_chain]
  · rw [fold_update_field ProcRow.surgical_notes (fun e o => rfl),
      fold_update_field ProcRow.surgical_notes (fun e o => rfl), pick_idem_chain]
  · rw [fold_update_field ProcRow.pacu_request (fun e o => rfl),
      fold_update_field ProcRow.pacu_request (fun e o => rfl), pick_idem_chain]
  · rw [fold_update_field ProcRow.cancelled (fun e o => rfl),
      fold_update_field ProcRow.cancelled (fun e o => rfl), pick_idem_chain]

theorem fold_update_fix (c : ProcRow) (cs : List ProcRow) :
    List.foldl procUpdate (List.foldl procUpdate (insertFix c) cs) (c :: cs)
      = List.foldl procUpdate (insertFix c) cs := by
  have key : ∀ {β : Type} (g : ProcRow → Option β),
      (∀ e o, g (procUpdate e o) = pick (g o) (g e)) →
      (∀ u, g c = some u → g (insertFix c) = g c) →
      g (List.foldl procUpdate (List.foldl procUpdate (insertFix c) cs) (c :: cs))
        = g (List.foldl procUpdate (insertFix c) cs) := by
    intro β g hg hfix
    rw [fold_update_field g hg, fold_update_field g hg, List.map_cons, foldPickList_cons]
    cases hfp : foldPickList (cs.map g) with
    | some a => rfl
    | none =>
        show pick (pick none (g c)) (pick none (g (insertFix c))) = pick none (g (insertFix c))
        cases hgc : g c with
        | none => rfl
        | some u =>
            rw [hfix u hgc, hgc]
            rfl
  apply procRow_eq
  · show (List.foldl procUpdate (List.foldl procUpdate (insertFix c) cs) (c :: cs)).procedure_id
      = _
    rw [fold_update_pid, fold_update_pid]
  · exact key ProcRow.idmrn (fun e o => rfl) (fun u h => rfl)
  · exact key ProcRow.surgical_procedure (fun e o => rfl) (fun u h => rfl)
  · exact key ProcRow.surgical_date (fun e o => rfl) (fun u h => rfl)
  · exact key ProcRow.surgical_priority (fun e o => rfl) (fun u h => rfl)
  · exact key ProcRow.surgical_consultant (fun e o => rfl) (fun u h => rfl)
  · exact key ProcRow.surgical_pathway (fun e o => rfl) (fun u h => rfl)
  · exact key ProcRow.surgical_notes (fun e o => rfl) (fun u h => rfl)
  · exact key ProcRow.pacu_request (fun e o => rfl) (fun u h => rfl)
  · exact key ProcRow.cancelled (fun e o => rfl)
      (fun u h => by simp [insertFix, h])

theorem pick_self {α : Type} (a : Option α) : pick a a = a := by cases a <;> rfl

theorem keyOf_procUpdate (p c : ProcRow) (h : keyOf c = keyOf p) :
    keyOf (procUpdate p c) = keyOf p := by
  simp only [keyOf, Prod.mk.injEq] at h
  obtain ⟨h1, h2, h3⟩ := h
  simp only [keyOf, procUpdate, Prod.mk.injEq]
  rw [h1, h2, h3]
  exact ⟨pick_self _, pick_self _, pick_self _⟩

theorem keyOf_fold_update (p : ProcRow) (cs : List ProcRow)
    (h : ∀ c ∈ cs, keyOf c = keyOf p) :
    keyOf (List.foldl procUpdate p cs) = keyOf p := by
  induction cs generalizing p with
  | nil => rfl
  | cons c cs ih =>
      show keyOf (List.foldl procUpdate (procUpdate p c) cs) = keyOf p
      have hpc : keyOf (procUpdate p c) = keyOf p :=
        keyOf_procUpdate p c (h c (List.mem_cons_self _ _))
      rw [ih (procUpdate p c) (fun c' hc' => by
        rw [hpc]
        exact h c' (List.mem_cons_of_mem _ hc')), hpc]

theorem cands_key (k : Option String × Option String × Option PyDate) (rs : List Record)
    (c : ProcRow) (hc : c ∈ cands k rs) : keyOf c = k := by
  rw [cands] at hc
  obtain ⟨r, _, hif⟩ := List.mem_filterMap.mp hc
  split at hif
  · next hcond =>
      cases hif
      exact hcond.2
  · cases hif

theorem cands_cons (k : Option String × Option String × Option PyDate) (r : Record)
    (rs : List Record) :
    cands k (r :: rs)
      = if has_required_fields r ∧ keyOf (buildProc r) = k then
          buildProc r :: cands k rs
        else cands k rs := by
  by_cases hc : has_required_fields r ∧ keyOf (buildProc r) = k
  · simp [cands, List.filterMap_cons, hc]
  · simp [cands, List.filterMap_cons, hc]

theorem keyOf_F (rs : List Record) (p : ProcRow) : keyOf (F rs p) = keyOf p :=
  keyOf_fold_update p _ (fun c hc => cands_key _ rs c hc)

theorem filterK_nil_iff (k : Option String × Option String × Option PyDate)
    (l : List ProcRow) : filterK k l = [] ↔ k ∉ keysOf l := by
  constructor
  · intro h hk
    obtain ⟨p, hp, hkp⟩ := List.mem_map.mp hk
    have : p ∈ filterK k l := List.mem_filter.mpr ⟨hp, by simp [hkp]⟩
    rw [h] at this
    cases this
  · intro hk
    rw [filterK, List.filter_eq_nil_iff]
    intro p hp
    simp only [decide_eq_true_eq]
    intro he
    exact hk (List.mem_map.mpr ⟨p, hp, he⟩)

theorem UK_filterK (l : List ProcRow) (hn : (keysOf l).Nodup)
    (k : Option String × Option String × Option PyDate) :
    filterK k l = [] ∨ ∃ p, filterK k l = [p] := by
  induction l with
  | nil => exact Or.inl rfl
  | cons p ps ih =>
      rw [keysOf, List.map_cons, List.nodup_cons] at hn
      obtain ⟨hnp, hnps⟩ := hn
      by_cases hk : keyOf p = k
      · right
        refine ⟨p, ?_⟩
        have hnil : filterK k ps = [] := by
          rw [filterK_nil_iff]
          rw [← hk]
          exact hnp
        rw [filterK, List.filter_cons, if_pos (by simp [hk]), ← filterK, hnil]
      · have : filterK k (p :: ps) = filterK k ps := by
          rw [filterK, List.filter_cons, if_neg (by simp [hk])]
          rfl
        rw [this]
        exact ih hnps

theorem map_cond_id (k : Option String × Option String × Option PyDate) (c : ProcRow)
    (l : List ProcRow) (h : k ∉ keysOf l) :
    l.map (fun p => if keyOf p = k then procUpdate p c else p) = l := by
  induction l with
  | nil => rfl
  | cons p ps ih =>
      rw [keysOf, List.map_cons] at h
      simp only [List.mem_cons, not_or] at h
      rw [List.map_cons, if_neg (fun he => h.1 he.symm),
        ih (by simpa [keysOf] using h.2)]

theorem updFirst_map (k : Option String × Option String × Option PyDate) (c : ProcRow)
    (l : List ProcRow) (hn : (keysOf l).Nodup) :
    updFirst k c l = l.map (fun p => if keyOf p = k then procUpdate p c else p) := by
  induction l with
  | nil => rfl
  | cons p ps ih =>
      rw [keysOf, List.map_cons, List.nodup_cons] at hn
      obtain ⟨hnp, hnps⟩ := hn
      by_cases hk : keyOf p = k
      · rw [updFirst, if_pos hk, List.map_cons, if_pos hk,
          map_cond_id k c ps (by rw [← hk]; exact hnp)]
      · rw [updFirst, if_neg hk, List.map_cons, if_neg hk, ih hnps]

theorem keysOf_updFirst (k : Option String × Option String × Option PyDate) (c : ProcRow)
    (l : List ProcRow) (hkc : keyOf c = k) : keysOf (updFirst k c l) = keysOf l := by
  induction l with
  | nil => rfl
  | cons p ps ih =>
      by_cases hk : keyOf p = k
      · rw [updFirst, if_pos hk, keysOf, List.map_cons,
          keyOf_procUpdate p c (by rw [hkc, hk])]
        rfl
      · rw [updFirst, if_neg hk, keysOf, List.map_cons, ← keysOf, ih]
        rfl

theorem keysOf_map_F (rs : List Record) (l : List ProcRow) :
    keysOf (l.map (F rs)) = keysOf l := by
  rw [keysOf, List.map_map]
  exact List.map_congr_left (fun p _ => keyOf_F rs p)

theorem strFieldOf_isSome (r : Record) (n : String) (h : pyTruthy (rget r n) = true) :
    (strFieldOf r n).isSome = true := by
  rw [strFieldOf]
  cases hv : rget r n with
  | vnone => rw [hv] at h; simp [pyTruthy] at h
  | vstr s => rfl
  | vdate d => rfl
  | vdtime d a b c => rfl
  | vbool b => rfl
  | vint n => rfl

theorem commitOk_gated (r : Record) (hg : has_required_fields r = true) :
    commitOk (buildProc r) (buildPat r) = dOk (keyOf (buildProc r)) := by
  have hall := List.all_eq_true.mp hg
  have hget : ∀ f : ColMeta, f ∈ all_db_columns → requiredCol f = true →
      pyTruthy (rget r f.name) = true := by
    intro f hf hreq
    have := hall f hf
    simpa [hreq] using this
  have h1 : (strFieldOf r "surgical_procedure").isSome = true :=
    strFieldOf_isSome r _ (hget ⟨"surgical_procedure", .cstring, false, false, false⟩
      (by decide) (by decide))
  have h2 : (strFieldOf r "surgical_pathway").isSome = true :=
    strFieldOf_isSome r _ (hget ⟨"surgical_pathway", .cstring, false, false, false⟩
      (by decide) (by decide))
  have h3 : (strFieldOf r "idmrn").isSome = true :=
    strFieldOf_isSome r _ (hget ⟨"idmrn", .cstring, false, false, false⟩
      (by decide) (by decide))
  have h4 : (strFieldOf r "patient_given_name").isSome = true :=
    strFieldOf_isSome r _ (hget ⟨"patient_given_name", .cstring, false, false, false⟩
      (by decide) (by decide))
  have h5 : (strFieldOf r "patient_family_name").isSome = true :=
    strFieldOf_isSome r _ (hget ⟨"patient_family_name", .cstring, false, false, false⟩
      (by decide) (by decide))
  show ((buildProc r).surgical_procedure.isSome && (buildProc r).surgical_date.isSome &&
      (buildProc r).surgical_pathway.isSome && (buildPat r).idmrn.isSome &&
      (buildPat r).patient_given_name.isSome && (buildPat r).patient_family_name.isSome)
    = (buildProc r).surgical_date.isSome
  show ((strFieldOf r "surgical_procedure").isSome && (buildProc r).surgical_date.isSome &&
      (strFieldOf r "surgical_pathway").isSome && (strFieldOf r "idmrn").isSome &&
      (strFieldOf r "patient_given_name").isSome && (strFieldOf r "patient_family_name").isSome)
    = (buildProc r).surgical_date.isSome
  rw [h1, h2, h3, h4, h5]
  cases (buildProc r).surgical_date.isSome <;> rfl

theorem mem_keysOf (k : Option String × Option String × Option PyDate) (l : List ProcRow) :
    k ∈ keysOf l ↔ ∃ p ∈ l, keyOf p = k := List.mem_map

theorem keysOf_append (a b : List ProcRow) : keysOf (a ++ b) = keysOf a ++ keysOf b :=
  List.map_append _ _ _

theorem keysOf_map_keep (g : ProcRow → ProcRow) (hg : ∀ p, keyOf (g p) = keyOf p)
    (l : List ProcRow) : keysOf (l.map g) = keysOf l := by
  rw [keysOf, List.map_map]
  exact List.map_congr_left (fun p _ => hg p)

theorem filterK_mem_singleton (l : List ProcRow) (hn : (keysOf l).Nodup)
    (k : Option String × Option String × Option PyDate) (hk : k ∈ keysOf l) :
    ∃ p, filterK k l = [p] :=
  (UK_filterK l hn k).resolve_left (fun h => (filterK_nil_iff k l).mp h hk)

theorem keyOf_insertFix (c : ProcRow) : keyOf (insertFix c) = keyOf c := rfl

theorem dbStep_notgate (procs : List ProcRow) (pats : List PatRow) (r : Record)
    (h : has_required_fields r = false) :
    dbStep ⟨procs, pats⟩ r = .ok ⟨procs, pats⟩ := by
  simp [dbStep, h]

theorem dbStep_insert (procs : List ProcRow) (pats : List PatRow) (r : Record)
    (hg : has_required_fields r = true)
    (hf : filterK (keyOf (buildProc r)) procs = [])
    (hc : commitOk (buildProc r) (buildPat r) = true) :
    dbStep ⟨procs, pats⟩ r
      = .ok ⟨procs ++ [insertFix (buildProc r)], mergePats (buildPat r) pats⟩ := by
  simp [dbStep, hg, hf, hc]

theorem dbStep_skip (procs : List ProcRow) (pats : List PatRow) (r : Record)
    (hg : has_required_fields r = true)
    (hf : filterK (keyOf (buildProc r)) procs = [])
    (hc : commitOk (buildProc r) (buildPat r) = false) :
    dbStep ⟨procs, pats⟩ r = .ok ⟨procs, pats⟩ := by
  simp [dbStep, hg, hf, hc]

theorem dbStep_update (procs : List ProcRow) (pats : List PatRow) (r : Record) (p₀ : ProcRow)
    (hg : has_required_fields r = true)
    (hf : filterK (keyOf (buildProc r)) procs = [p₀]) :
    dbStep ⟨procs, pats⟩ r
      = .ok ⟨updFirst (keyOf (buildProc r)) (buildProc r) procs, pats⟩ := by
  simp [dbStep, hg, hf]

theorem cands_nil (k : Option String × Option String × Option PyDate) : cands k [] = [] := rfl

theorem cands_append (k : Option String × Option String × Option PyDate)
    (as bs : List Record) : cands k (as ++ bs) = cands k as ++ cands k bs := by
  rw [cands, cands, cands, List.filterMap_append]

theorem cands_single_hit (k : Option String × Option String × Option PyDate) (r : Record)
    (hg : has_required_fields r = true) (hk : keyOf (buildProc r) = k) :
    cands k [r] = [buildProc r] := by
  rw [show ([r] : List Record) = r :: [] from rfl, cands_cons, if_pos ⟨hg, hk⟩, cands_nil]

theorem cands_single_miss (k : Option String × Option String × Option PyDate) (r : Record)
    (h : ¬(has_required_fields r = true ∧ keyOf (buildProc r) = k)) :
    cands k [r] = [] := by
  rw [show ([r] : List Record) = r :: [] from rfl, cands_cons, if_neg h, cands_nil]

theorem F_nil (p : ProcRow) : F [] p = p := rfl

theorem F_cons_skip (r : Record) (rs : List Record) (p : ProcRow)
    (h : ¬(has_required_fields r = true ∧ keyOf (buildProc r) = keyOf p)) :
    F (r :: rs) p = F rs p := by
  rw [F, F, cands_cons, if_neg h]

theorem F_cons_hit (r : Record) (rs : List Record) (p : ProcRow)
    (hg : has_required_fields r = true) (hk : keyOf (buildProc r) = keyOf p) :
    F (r :: rs) p = F rs (procUpdate p (buildProc r)) := by
  rw [F, F, cands_cons, if_pos ⟨hg, hk⟩, List.foldl_cons,
    keyOf_procUpdate p (buildProc r) hk]

theorem keyOf_candFold (d : List Record) (p : ProcRow) :
    keyOf (List.foldl procUpdate p (cands (keyOf p) d)) = keyOf p :=
  keyOf_fold_update p _ (fun c hc => cands_key _ d c hc)

theorem passTwo_aux (rs : List Record) :
    ∀ (done : List Record) (l : List ProcRow) (pats : List PatRow),
    (keysOf l).Nodup →
    (∀ r ∈ rs, has_required_fields r = true → dOk (keyOf (buildProc r)) = true →
      keyOf (buildProc r) ∈ keysOf l) →
    dbAll rs ⟨l.map (fun p => List.foldl procUpdate p (cands (keyOf p) done)), pats⟩
      = .ok ⟨l.map (fun p => List.foldl procUpdate p (cands (keyOf p) (done ++ rs))), pats⟩ := by
  induction rs with
  | nil =>
      intro done l pats _ _
      rw [List.append_nil]
      rfl
  | cons r rs ih =>
      intro done l pats hn hkeys
      have hkeysmap : keysOf (l.map (fun p =>
          List.foldl procUpdate p (cands (keyOf p) done))) = keysOf l :=
        keysOf_map_keep _ (keyOf_candFold done) l
      have htail : ∀ r' ∈ rs, has_required_fields r' = true →
          dOk (keyOf (buildProc r')) = true → keyOf (buildProc r') ∈ keysOf l :=
        fun r' hr' => hkeys r' (List.mem_cons_of_mem _ hr')
      by_cases hg : has_required_fields r = true
      · by_cases hmem : keyOf (buildProc r) ∈ keysOf l
        · obtain ⟨q, hq⟩ := filterK_mem_singleton _ (by rw [hkeysmap]; exact hn) _
            (by rw [hkeysmap]; exact hmem)
          have hstep := dbStep_update _ pats r q hg hq
          simp only [dbAll, hstep]
          have hupd : updFirst (keyOf (buildProc r)) (buildProc r)
              (l.map (fun p => List.foldl procUpdate p (cands (keyOf p) done)))
              = l.map (fun p => List.foldl procUpdate p (cands (keyOf p) (done ++ [r]))) := by
            rw [updFirst_map _ _ _ (by rw [hkeysmap]; exact hn), List.map_map]
            refine List.map_congr_left ?_
            intro p _
            show (if keyOf (List.foldl procUpdate p (cands (keyOf p) done))
                    = keyOf (buildProc r) then
                  procUpdate (List.foldl procUpdate p (cands (keyOf p) done)) (buildProc r)
                else List.foldl procUpdate p (cands (keyOf p) done))
              = List.foldl procUpdate p (cands (keyOf p) (done ++ [r]))
            rw [keyOf_candFold done p]
            by_cases hpk : keyOf p = keyOf (buildProc r)
            · rw [if_pos hpk, cands_append, cands_single_hit _ r hg hpk.symm,
                List.foldl_append]
              rfl
            · rw [if_neg hpk, cands_append,
                cands_single_miss _ r (fun hx => hpk hx.2.symm), List.append_nil]
          rw [hupd]
          have hrec := ih (done ++ [r]) l pats hn htail
          rw [List.append_assoc, List.singleton_append] at hrec
          exact hrec
        · have hd : dOk (keyOf (buildProc r)) = false := by
            by_cases hdo : dOk (keyOf (buildProc r)) = true
            · exact absurd (hkeys r (List.mem_cons_self _ _) hg hdo) hmem
            · revert hdo
              cases dOk (keyOf (buildProc r)) <;> simp
          have hcOk : commitOk (buildProc r) (buildPat r) = false := by
            rw [commitOk_gated r hg]
            exact hd
          have hfe : filterK (keyOf (buildProc r)) (l.map (fun p =>
              List.foldl procUpdate p (cands (keyOf p) done))) = [] := by
            rw [filterK_nil_iff, hkeysmap]
            exact hmem
          have hstep := dbStep_skip _ pats r hg hfe hcOk
          simp only [dbAll, hstep]
          have hmapeq : l.map (fun p => List.foldl procUpdate p (cands (keyOf p) done))
              = l.map (fun p => List.foldl procUpdate p (cands (keyOf p) (done ++ [r]))) := by
            refine List.map_congr_left ?_
            intro p hp
            rw [cands_append, cands_single_miss _ r
              (fun hx => hmem (by rw [hx.2]; exact List.mem_map.mpr ⟨p, hp, rfl⟩)),
              List.append_nil]
          rw [hmapeq]
          have hrec := ih (done ++ [r]) l pats hn htail
          rw [List.append_assoc, List.singleton_append] at hrec
          exact hrec
      · have hg' : has_required_fields r = false := by
          revert hg
          cases has_required_fields r <;> simp
        have hstep := dbStep_notgate
          (l.map (fun p => List.foldl procUpdate p (cands (keyOf p) done))) pats r hg'
        simp only [dbAll, hstep]
        have hmapeq : l.map (fun p => List.foldl procUpdate p (cands (keyOf p) done))
            = l.map (fun p => List.foldl procUpdate p (cands (keyOf p) (done ++ [r]))) := by
          refine List.map_congr_left ?_
          intro p _
          rw [cands_append, cands_single_miss _ r
            (fun hx => by rw [hx.1] at hg'; exact Bool.noConfusion hg'),
            List.append_nil]
        rw [hmapeq]
        have hrec := ih (done ++ [r]) l pats hn htail
        rw [List.append_assoc, List.singleton_append] at hrec
        exact hrec

theorem passTwo (rs : List Record) (t : Store) (hUK : UK t)
    (hfix : ∀ p ∈ t.procs, F rs p = p)
    (hkeys : ∀ r ∈ rs, has_required_fields r = true →
      dOk (keyOf (buildProc r)) = true → keyOf (buildProc r) ∈ keysOf t.procs) :
    dbAll rs t = .ok t := by
  have h := passTwo_aux rs [] t.procs t.pats hUK hkeys
  rw [List.nil_append] at h
  have hid : t.procs.map (fun p => List.foldl procUpdate p (cands (keyOf p) [])) = t.procs := by
    rw [show (fun p => List.foldl procUpdate p (cands (keyOf p) [])) = fun p : ProcRow => p
      from funext (fun p => rfl)]
    exact List.map_id' t.procs
  have hfx : t.procs.map (fun p => List.foldl procUpdate p (cands (keyOf p) rs)) = t.procs := by
    rw [show t.procs.map (fun p => List.foldl procUpdate p (cands (keyOf p) rs))
        = t.procs.map (F rs) from rfl]
    rw [List.map_congr_left hfix]
    exact List.map_id' t.procs
  rw [hid, hfx] at h
  cases t
  exact h

theorem dbAll_decomp (rs : List Record) :
    ∀ s t : Store, UK s → dbAll rs s = .ok t →
    ∃ ext : List ProcRow,
      t.procs = s.procs.map (F rs) ++ ext ∧
      (∀ q ∈ ext, keyOf q ∉ keysOf s.procs ∧ dOk (keyOf q) = true ∧
        ∃ c0 cs, cands (keyOf q) rs = c0 :: cs ∧
          q = List.foldl procUpdate (insertFix c0) cs) ∧
      UK t ∧
      (∀ r ∈ rs, has_required_fields r = true → dOk (keyOf (buildProc r)) = true →
        keyOf (buildProc r) ∈ keysOf t.procs) := by
  induction rs with
  | nil =>
      intro s t hUK h
      simp only [dbAll] at h
      obtain rfl := Except.ok.inj h
      refine ⟨[], ?_, ?_, hUK, ?_⟩
      · have hm : s.procs.map (F []) = s.procs := by
          rw [List.map_congr_left (fun p _ => F_nil p)]
          exact List.map_id' _
        rw [List.append_nil, hm]
      · intro q hq
        cases hq
      · intro r hr
        cases hr
  | cons r rs ih =>
      intro s t hUK h
      obtain ⟨sprocs, spats⟩ := s
      dsimp only
      by_cases hg : has_required_fields r = true
      · cases hf : filterK (keyOf (buildProc r)) sprocs with
        | nil =>
            have hknot : keyOf (buildProc r) ∉ keysOf sprocs := (filterK_nil_iff _ _).mp hf
            have hmap : sprocs.map (F (r :: rs)) = sprocs.map (F rs) :=
              List.map_congr_left (fun p hp => F_cons_skip r rs p
                (fun hx => hknot (by rw [hx.2]; exact List.mem_map.mpr ⟨p, hp, rfl⟩)))
            by_cases hc : commitOk (buildProc r) (buildPat r) = true
            · have hstep := dbStep_insert sprocs spats r hg hf hc
              simp only [dbAll, hstep] at h
              have hd : dOk (keyOf (buildProc r)) = true := by
                rw [commitOk_gated r hg] at hc
                exact hc
              have hUK' : UK ⟨sprocs ++ [insertFix (buildProc r)],
                  mergePats (buildPat r) spats⟩ := by
                show (keysOf (sprocs ++ [insertFix (buildProc r)])).Nodup
                rw [keysOf_append, List.nodup_append]
                refine ⟨hUK, List.nodup_singleton _, ?_⟩
                intro a ha hab
                have hak : a = keyOf (buildProc r) := by
                  have := List.mem_singleton.mp hab
                  rw [this, keyOf_insertFix]
                rw [hak] at ha
                exact hknot ha
              obtain ⟨ext', hA, hB, hC, hD⟩ := ih _ t hUK' h
              dsimp only at hA
              rw [List.map_append] at hA
              refine ⟨F rs (insertFix (buildProc r)) :: ext', ?_, ?_, hC, ?_⟩
              · rw [hmap, hA, List.append_assoc]
                rfl
              · intro q hq
                rcases List.mem_cons.mp hq with hq0 | hq'
                · have hkq : keyOf (F rs (insertFix (buildProc r)))
                      = keyOf (buildProc r) := (keyOf_F rs _).trans (keyOf_insertFix _)
                  rw [hq0, hkq]
                  refine ⟨hknot, hd, buildProc r, cands (keyOf (buildProc r)) rs, ?_, ?_⟩
                  · rw [cands_cons, if_pos ⟨hg, rfl⟩]
                  · rw [F, keyOf_insertFix]
                · obtain ⟨hq1, hq2, c0, cs, hq3, hq4⟩ := hB q hq'
                  dsimp only at hq1
                  rw [keysOf_append] at hq1
                  have hnot1 : keyOf q ∉ keysOf sprocs :=
                    fun hx => hq1 (List.mem_append.mpr (Or.inl hx))
                  have hneq : keyOf q ≠ keyOf (buildProc r) := by
                    intro hx
                    exact hq1 (List.mem_append.mpr (Or.inr
                      (List.mem_singleton.mpr (hx.trans (keyOf_insertFix _).symm))))
                  refine ⟨hnot1, hq2, c0, cs, ?_, hq4⟩
                  rw [cands_cons, if_neg (fun hx => hneq hx.2.symm), hq3]
              · intro r' hr' hg' hd'
                rcases List.mem_cons.mp hr' with h0 | hmem'
                · subst h0
                  refine (mem_keysOf _ _).mpr ⟨F rs (insertFix (buildProc r')), ?_,
                    (keyOf_F rs _).trans (keyOf_insertFix _)⟩
                  rw [hA]
                  exact List.mem_append.mpr (Or.inl (List.mem_append.mpr
                    (Or.inr (List.mem_singleton.mpr rfl))))
                · exact hD r' hmem' hg' hd'
            · have hc' : commitOk (buildProc r) (buildPat r) = false := by
                revert hc
                cases commitOk (buildProc r) (buildPat r) <;> simp
              have hstep := dbStep_skip sprocs spats r hg hf hc'
              simp only [dbAll, hstep] at h
              have hd : dOk (keyOf (buildProc r)) = false := by
                rw [commitOk_gated r hg] at hc'
                exact hc'
              obtain ⟨ext, hA, hB, hC, hD⟩ := ih ⟨sprocs, spats⟩ t hUK h
              dsimp only at hA
              refine ⟨ext, ?_, ?_, hC, ?_⟩
              · rw [hmap, hA]
              · intro q hq
                obtain ⟨hq1, hq2, c0, cs, hq3, hq4⟩ := hB q hq
                dsimp only at hq1
                have hneq : keyOf q ≠ keyOf (buildProc r) := by
                  intro hx
                  rw [← hx] at hd
                  rw [hd] at hq2
                  exact Bool.noConfusion hq2
                refine ⟨hq1, hq2, c0, cs, ?_, hq4⟩
                rw [cands_cons, if_neg (fun hx => hneq hx.2.symm), hq3]
              · intro r' hr' hg' hd'
                rcases List.mem_cons.mp hr' with h0 | hmem'
                · subst h0
                  rw [hd] at hd'
                  exact Bool.noConfusion hd'
                · exact hD r' hmem' hg' hd'
        | cons p₀ rest =>
            cases rest with
            | nil =>
                have hstep := dbStep_update sprocs spats r p₀ hg hf
                simp only [dbAll, hstep] at h
                have hkeysU : keysOf (updFirst (keyOf (buildProc r)) (buildProc r) sprocs)
                    = keysOf sprocs := keysOf_updFirst _ _ _ rfl
                have hUK' : UK ⟨updFirst (keyOf (buildProc r)) (buildProc r) sprocs,
                    spats⟩ := by
                  show (keysOf (updFirst (keyOf (buildProc r)) (buildProc r) sprocs)).Nodup
                  rw [hkeysU]
                  exact hUK
                obtain ⟨ext, hA, hB, hC, hD⟩ := ih _ t hUK' h
                dsimp only at hA
                have hk_in : keyOf (buildProc r) ∈ keysOf sprocs := by
                  have hp₀ : p₀ ∈ filterK (keyOf (buildProc r)) sprocs := by
                    rw [hf]
                    exact List.mem_singleton.mpr rfl
                  have := List.mem_filter.mp hp₀
                  simp only [decide_eq_true_eq] at this
                  exact (mem_keysOf _ _).mpr ⟨p₀, this.1, this.2⟩
                have hmapU : (updFirst (keyOf (buildProc r)) (buildProc r) sprocs).map (F rs)
                    = sprocs.map (F (r :: rs)) := by
                  rw [updFirst_map _ _ _ hUK, List.map_map]
                  refine List.map_congr_left ?_
                  intro p _
                  show F rs (if keyOf p = keyOf (buildProc r) then
                      procUpdate p (buildProc r) else p) = F (r :: rs) p
                  by_cases hpk : keyOf p = keyOf (buildProc r)
                  · rw [if_pos hpk, F_cons_hit r rs p hg hpk.symm]
                  · rw [if_neg hpk, F_cons_skip r rs p (fun hx => hpk hx.2.symm)]
                refine ⟨ext, ?_, ?_, hC, ?_⟩
                · rw [hA, hmapU]
                · intro q hq
                  obtain ⟨hq1, hq2, c0, cs, hq3, hq4⟩ := hB q hq
                  dsimp only at hq1
                  rw [hkeysU] at hq1
                  have hneq : keyOf q ≠ keyOf (buildProc r) := fun hx => hq1 (hx ▸ hk_in)
                  refine ⟨hq1, hq2, c0, cs, ?_, hq4⟩
                  rw [cands_cons, if_neg (fun hx => hneq hx.2.symm), hq3]
                · intro r' hr' hg' hd'
                  rcases List.mem_cons.mp hr' with h0 | hmem'
                  · subst h0
                    rw [hA, keysOf_append, keysOf_map_keep (F rs) (keyOf_F rs) _]
                    exact List.mem_append.mpr (Or.inl (by rw [hkeysU]; exact hk_in))
                  · exact hD r' hmem' hg' hd'
            | cons p₁ rest' =>
                exfalso
                rcases UK_filterK sprocs hUK (keyOf (buildProc r)) with hnil | ⟨p, hp⟩
                · rw [hf] at hnil
                  cases hnil
                · rw [hf] at hp
                  simp at hp
      · have hg' : has_required_fields r = false := by
          revert hg
          cases has_required_fields r <;> simp
        have hstep := dbStep_notgate sprocs spats r hg'
        simp only [dbAll, hstep] at h
        obtain ⟨ext, hA, hB, hC, hD⟩ := ih ⟨sprocs, spats⟩ t hUK h
        dsimp only at hA
        have hmap : sprocs.map (F (r :: rs)) = sprocs.map (F rs) :=
          List.map_congr_left (fun p _ => F_cons_skip r rs p
            (fun hx => by rw [hx.1] at hg'; exact Bool.noConfusion hg'))
        refine ⟨ext, ?_, ?_, hC, ?_⟩
        · rw [hmap, hA]
        · intro q hq
          obtain ⟨hq1, hq2, c0, cs, hq3, hq4⟩ := hB q hq
          dsimp only at hq1
          refine ⟨hq1, hq2, c0, cs, ?_, hq4⟩
          rw [cands_cons, if_neg (fun hx => by rw [hx.1] at hg'; exact Bool.noConfusion hg'),
            hq3]
        · intro r' hr' hg'' hd'
          rcases List.mem_cons.mp hr' with h0 | hmem'
          · subst h0
            rw [hg''] at hg'
            exact Bool.noConfusion hg'
          · exact hD r' hmem' hg'' hd'

theorem dbAll_idem (rs : List Record) (s t : Store) (hUK : UK s)
    (h : dbAll rs s = .ok t) : dbAll rs t = .ok t := by
  obtain ⟨ext, hA, hB, hC, hD⟩ := dbAll_decomp rs s t hUK h
  refine passTwo rs t hC ?_ hD
  intro p hp
  rw [hA] at hp
  rcases List.mem_append.mp hp with hm | hm
  · obtain ⟨p₀, _, rfl⟩ := List.mem_map.mp hm
    rw [F, keyOf_F]
    exact fold_update_twice p₀ (cands (keyOf p₀) rs)
  · obtain ⟨_, _, c0, cs, hq3, hq4⟩ := hB p hm
    rw [F, hq3, hq4]
    exact fold_update_fix c0 cs

theorem ingestGo_parse (colMap : List (Nat × FieldParser)) (sh : Sheet) (seed : Record) :
    ∀ (ris : List Nat) (last : Record) (st t : Store),
    ingestGo colMap sh seed ris last st = .ok t →
    ∃ rs, parseAllRows colMap sh seed ris last = .ok rs ∧ dbAll rs st = .ok t := by
  intro ris
  induction ris with
  | nil =>
      intro last st t h
      simp only [ingestGo] at h
      obtain rfl := Except.ok.inj h
      exact ⟨[], rfl, rfl⟩
  | cons ri rest ih =>
      intro last st t h
      simp only [ingestGo] at h
      cases hp : parseRowCells colMap sh.grid ri (sh.rowLen ri) seed last with
      | error e =>
          simp only [hp] at h
          exact Except.noConfusion h
      | ok r =>
          simp only [hp] at h
          cases hs : dbStep st r with
          | error e =>
              simp only [hs] at h
              exact Except.noConfusion h
          | ok st' =>
              simp only [hs] at h
              obtain ⟨rs, hps, hdb⟩ := ih r st' t h
              refine ⟨r :: rs, ?_, ?_⟩
              · simp only [parseAllRows, hp, hps]
              · simp only [dbAll, hs]
                exact hdb

theorem ingestGo_of_parse (colMap : List (Nat × FieldParser)) (sh : Sheet) (seed : Record) :
    ∀ (ris : List Nat) (last : Record) (st t : Store) (rs : List Record),
    parseAllRows colMap sh seed ris last = .ok rs →
    dbAll rs st = .ok t →
    ingestGo colMap sh seed ris last st = .ok t := by
  intro ris
  induction ris with
  | nil =>
      intro last st t rs hp hd
      simp only [parseAllRows] at hp
      obtain rfl := Except.ok.inj hp
      simp only [dbAll] at hd
      obtain rfl := Except.ok.inj hd
      rfl
  | cons ri rest ih =>
      intro last st t rs hp hd
      cases hpc : parseRowCells colMap sh.grid ri (sh.rowLen ri) seed last with
      | error e =>
          simp only [parseAllRows, hpc] at hp
          exact Except.noConfusion hp
      | ok r =>
          simp only [parseAllRows, hpc] at hp
          cases hpr : parseAllRows colMap sh seed rest r with
          | error e =>
              simp only [hpr] at hp
              exact Except.noConfusion hp
          | ok rs' =>
              simp only [hpr] at hp
              obtain rfl := Except.ok.inj hp
              simp only [dbAll] at hd
              cases hs : dbStep st r with
              | error e =>
                  simp only [hs] at hd
                  exact Except.noConfusion hd
              | ok st' =>
                  simp only [hs] at hd
                  simp only [ingestGo, hpc, hs]
                  exact ih r st' t rs' hpr hd

/-- C1: ingestion is idempotent with respect to the store.  For any column
map, seed record, row offset and sheet, if ingesting the sheet into a
store whose procedure table has unique natural keys succeeds and produces
store `t`, then ingesting the same sheet again against `t` succeeds and
leaves `t` exactly unchanged: the second pass finds each procedure by its
natural key (patient identifier, procedure name, procedure date) and
updates it in place, creating no duplicate `Procedure` or `Patient`
rows. -/
theorem c1_reingestion_idempotent (colMap : List (Nat × FieldParser)) (seed : Record)
    (rowOffset : Nat) (sh : Sheet) (s t : Store) (hUK : UK s)
    (h : ingest_sheet_rows colMap seed rowOffset sh s = .ok t) :
    ingest_sheet_rows colMap seed rowOffset sh t = .ok t := by
  rw [ingest_sheet_rows] at h ⊢
  obtain ⟨rs, hp, hd⟩ := ingestGo_parse colMap sh seed _ [] s t h
  exact ingestGo_of_parse colMap sh seed _ [] t t rs hp (dbAll_idem rs s t hUK hd)

/-- Witness for C1 on the demonstration sheet: the empty store has unique
keys, the first ingestion produces `demoStore`, and re-ingesting the same
sheet against `demoStore` returns it unchanged. -/
theorem c1_reingestion_witness :
    ingest_sheet_rows demoColMap demoSeed 2 demoSheet demoStore = .ok demoStore :=
  c1_reingestion_idempotent demoColMap demoSeed 2 demoSheet ⟨[], []⟩ demoStore
    List.nodup_nil (by rfl)

end XlsMuncher
